import Mathlib

/-!
# Verification of the gitctl command core (`src/gitctl/command.py`)

This file gives a shallow embedding of the per-project reconciliation logic of
gitctl: the `gitctl_update`, `gitctl_status`, `gitctl_pending` and
`gitctl_fetch` command handlers, over an explicit model of the git repository
state they manipulate.

Modelling conventions:
* A git commit graph is a finite association list from commit identifiers to
  their parent identifiers.  `git log A..B` is modelled by the set of commits
  reachable from `B` but not from `A`.
* A local working copy (`RepoState`) carries the dirty flag, the local and
  remote-tracking branch tips, the current `HEAD` commit, and the currently
  checked-out branch (none when `HEAD` is detached).
* The filesystem is an association list from project paths to repository
  states; a missing entry models a missing checkout.
* Python code that calls git with exceptions enabled is embedded in
  `Except GitError`; the single call made with exceptions disabled
  (`git pull` inside the update loop) returns a status/stderr pair instead.
* Log output is modelled as a list of structured `LogEntry` values, one per
  `LOG` call, carrying the same data the source interpolates into the message.
-/

/-- A project entry of the externals registry: name, clone url, treeish
(branch name or 40-hex pin) and checkout path. -/
structure Project where
  name : String
  url : String
  treeish : String
  path : String
deriving Repr, DecidableEq

/-- The parsed gitctl configuration: upstream remote name, the ordered
(remote, local) branch mapping, and the three pipeline branch names. -/
structure Config where
  upstream : String
  branches : List (String × String)
  developmentBranch : String
  stagingBranch : String
  productionBranch : String
deriving Repr, DecidableEq

/-- The state of one local working copy. -/
structure RepoState where
  dirty : Bool
  localBranches : List (String × String)
  remoteBranches : List (String × String)
  headSha : String
  activeBranch : Option String
deriving Repr, DecidableEq

/-- The world outside the checkouts: the commit graph (commit id to parent
ids), the branch tips of the upstream repository, the name of the upstream
default branch, and the set of project paths whose fetch fails (models
network or remote errors). -/
structure GitWorld where
  dag : List (String × List String)
  upstreamBranches : List (String × String)
  upstreamHead : String
  failFetch : List String
deriving Repr, DecidableEq

/-- The filesystem: project path to repository state. -/
abbrev FS := List (String × RepoState)

/-- A structured git failure, raised by git calls made with exceptions
enabled; it aborts the run because the source never catches it. -/
inductive GitError where
  | fetchFailed (path : String)
  | unknownRef (ref : String)
  | detachedHead
  | missingRepo (path : String)
deriving Repr, DecidableEq

/-- One emitted log line, reduced to its structured payload. -/
inductive LogEntry where
  | fetched (name : String)
  | dirty (name : String)
  | uncommittedChanges (name : String)
  | conflictWarn (name branch : String)
  | updateFailure (name stderr : String)
  | checkedOutRevision (name sha : String)
  | updated (name : String)
  | okVerbose (name : String)
  | cloned (name treeish : String)
  | branchOutOfSync (name branch : String)
  | skipping (name : String)
  | branchDoesNotExist (name branch : String)
  | treeishNotSha1 (name treeish : String)
  | aheadOfPinned (name branch : String) (commits : Nat) (toRev : String)
  | ahead (name b1 : String) (commits : Nat) (b2 : String)
  | diffLog (commits : List String)
  | externalsOutput (projects : List Project)
deriving Repr, DecidableEq

/-- Association-list lookup by string key (first match wins, like git refs). -/
def alookup {α : Type} : List (String × α) → String → Option α
  | [], _ => none
  | (k, v) :: rest, key => if k = key then some v else alookup rest key

/-- Replace the first binding of `k` (or append one): models updating a git
ref in place. -/
def upsert {α : Type} : List (String × α) → String → α → List (String × α)
  | [], k, v => [(k, v)]
  | (k', v') :: rest, k, v =>
      if k' = k then (k, v) :: rest else (k', v') :: upsert rest k v

/-- Write back the state of the repository at `p` (replace first entry, or
create it for a fresh clone). -/
def fsSet (fs : FS) (p : String) (r : RepoState) : FS := upsert fs p r

/-- The commit identifiers present in the graph. -/
def shas (dag : List (String × List String)) : List String := dag.map Prod.fst

/-- Parents of a commit (commits outside the graph have none). -/
def parentsOf (dag : List (String × List String)) (s : String) : List String :=
  (alookup dag s).getD []

/-- Duplicate-free copy of a list of strings (keeps the last occurrence). -/
def sdedup : List String → List String
  | [] => []
  | x :: xs => if x ∈ xs then sdedup xs else x :: sdedup xs

/-- One breadth step of reachability: add every parent of a known commit. -/
def ancestorsStep (dag : List (String × List String)) (cur : List String) : List String :=
  sdedup (cur ++ cur.flatMap (parentsOf dag))

/-- All commits reachable from `s` (including `s`), duplicate-free.  Iterating
one breadth step `dag.length` times reaches every commit at any distance,
since any reachable commit is reachable through at most `dag.length` edges. -/
def ancestors (dag : List (String × List String)) (s : String) : List String :=
  sdedup (Nat.iterate (ancestorsStep dag) dag.length [s])

/-- Models `git log --pretty=oneline from..to`: one entry per commit reachable
from the target but not from the base. -/
def gitLogOnelineRange (dag : List (String × List String)) (fromRev toRev : String) : List String :=
  (ancestors dag toRev).filter (fun s => ¬ s ∈ ancestors dag fromRev)

/-- Models `git log --stat --summary -p from to` (two separate revision
arguments, not a range): the commits reachable from either endpoint. -/
def gitLogStatTwoRevs (dag : List (String × List String)) (fromRev toRev : String) : List String :=
  sdedup (ancestors dag fromRev ++ ancestors dag toRev)

/-- Modelled from the spec: `gitctl.utils.is_sha1` (gitctl/utils.py is not in
the source tree).  Per the spec, a treeish is pinned exactly when it is a
40-character lowercase hex string. -/
def is_sha1 (s : String) : Bool :=
  s.length == 40 && s.toList.all (fun c => c ∈ "0123456789abcdef".toList)

/-- Modelled from the spec: `gitctl.utils.filter_projects` restricts the
project list to the caller-selected subset of project names; an empty
selection selects every project. -/
def filter_projects (projects : List Project) (selection : List String) : List Project :=
  if selection.isEmpty then projects
  else projects.filter (fun p => p.name ∈ selection)

/-- Models `git rev-parse ref` resolution: a full 40-hex object id resolves to
itself when the object exists, `HEAD` to the current commit, then local and
remote-tracking refs in that order. -/
def resolveRef (w : GitWorld) (st : RepoState) (ref : String) : Option String :=
  if is_sha1 ref ∧ ref ∈ shas w.dag then some ref
  else if ref = "HEAD" then some st.headSha
  else match alookup st.localBranches ref with
  | some s => some s
  | none => alookup st.remoteBranches ref

/-- `git rev-parse` with exceptions enabled. -/
def rev_parse (w : GitWorld) (st : RepoState) (ref : String) : Except GitError String :=
  match resolveRef w st ref with
  | some s => Except.ok s
  | none => Except.error (GitError.unknownRef ref)

/-- `git rev-parse` as used where the source has already checked the ref
exists; the default is unreachable under that guard. -/
def revParseD (w : GitWorld) (st : RepoState) (ref : String) : String :=
  (resolveRef w st ref).getD ""

/-- Write every upstream branch tip into the remote-tracking refs, under the
`remote/branch` naming. -/
def fetchRemotes (w : GitWorld) (upstream : String) (rb : List (String × String)) : List (String × String) :=
  w.upstreamBranches.foldl (fun m b => upsert m (upstream ++ "/" ++ b.1) b.2) rb

/-- The repository state after a successful fetch: the remote-tracking refs
are refreshed from upstream; fetch never touches local branches, the working
tree or `HEAD`. -/
def fetchedRepo (w : GitWorld) (upstream : String) (st : RepoState) : RepoState :=
  { st with remoteBranches := fetchRemotes w upstream st.remoteBranches }

/-- `git fetch` with exceptions enabled; raises for paths in the fail set. -/
def fetch (w : GitWorld) (path upstream : String) (st : RepoState) : Except GitError RepoState :=
  if path ∈ w.failFetch then Except.error (GitError.fetchFailed path)
  else Except.ok (fetchedRepo w upstream st)

/-- `git checkout ref`: a local branch becomes the active branch; any other
resolvable ref gives a detached `HEAD`. -/
def checkoutCore (w : GitWorld) (st : RepoState) (ref : String) : Option RepoState :=
  match alookup st.localBranches ref with
  | some tip => some { st with activeBranch := some ref, headSha := tip }
  | none =>
    match resolveRef w st ref with
    | some s => some { st with activeBranch := none, headSha := s }
    | none => none

/-- `git checkout` with exceptions enabled. -/
def checkout (w : GitWorld) (st : RepoState) (ref : String) : Except GitError RepoState :=
  match checkoutCore w st ref with
  | some st' => Except.ok st'
  | none => Except.error (GitError.unknownRef ref)

/-- `git checkout` as used where the source has already checked the branch is
local; the default is unreachable under that guard. -/
def checkoutD (w : GitWorld) (st : RepoState) (ref : String) : RepoState :=
  (checkoutCore w st ref).getD st

/-- `git reset --hard ref`: move `HEAD` (and the active branch ref, when one
is checked out) to the resolved commit and discard working-tree changes. -/
def resetHardState (st : RepoState) (s : String) : RepoState :=
  { st with
    headSha := s
    dirty := false
    localBranches :=
      match st.activeBranch with
      | some b => upsert st.localBranches b s
      | none => st.localBranches }

/-- `git reset --hard` with exceptions enabled. -/
def resetHard (w : GitWorld) (st : RepoState) (ref : String) : Except GitError RepoState :=
  match resolveRef w st ref with
  | none => Except.error (GitError.unknownRef ref)
  | some s => Except.ok (resetHardState st s)

/-- `Repo.active_branch` (GitPython reads `git symbolic-ref HEAD`, which
raises on a detached `HEAD`). -/
def active_branch (st : RepoState) : Except GitError String :=
  match st.activeBranch with
  | some b => Except.ok b
  | none => Except.error GitError.detachedHead

/-- Move the local branch `b` to `tip`; fast-forwarding the checked-out branch
also moves `HEAD`. -/
def advanceBranch (st : RepoState) (b tip : String) : RepoState :=
  { st with
    localBranches := upsert st.localBranches b tip
    headSha := if st.activeBranch = some b then tip else st.headSha }

/-- The result triple of `git pull` run with exceptions disabled. -/
structure PullResult where
  status : Nat
  stderr : String
  st : RepoState
deriving Repr, DecidableEq

/-- `git pull upstream local:local` without a force marker on the refspec:
succeeds exactly when the local tip is an ancestor of (or equal to) the
upstream tip, fast-forwarding the branch; a diverged branch fails with a
non-fast-forward message; a missing ref fails with another message. -/
def pull (w : GitWorld) (st : RepoState) (upstream lcl : String) : PullResult :=
  match alookup w.upstreamBranches lcl with
  | none => { status := 1, stderr := "fatal: could not find remote ref " ++ lcl, st := st }
  | some uptip =>
    match alookup st.localBranches lcl with
    | none => { status := 1, stderr := "fatal: unknown local ref " ++ lcl, st := st }
    | some ltip =>
      if ltip = uptip then { status := 0, stderr := "", st := st }
      else if ltip ∈ ancestors w.dag uptip then
        { status := 0, stderr := "", st := advanceBranch st lcl uptip }
      else { status := 1, stderr := "non fast forward", st := st }

/-- Leading-match test used by the substring scan. -/
def leadingMatch : List Char → List Char → Bool
  | [], _ => true
  | _ :: _, [] => false
  | a :: as, b :: bs => a = b && leadingMatch as bs

/-- Substring scan over character lists. -/
def containsSub (needle : List Char) : List Char → Bool
  | [] => leadingMatch needle []
  | c :: rest => leadingMatch needle (c :: rest) || containsSub needle rest

/-- The stderr classification of the source: `'non fast forward' in
stderr.lower()`. -/
def nonFastForward (stderr : String) : Bool :=
  containsSub "non fast forward".toList (stderr.toList.map Char.toLower)

/-- `git diff a b` text, modelled as empty exactly when the two refs resolve
to the same commit (each commit has a distinct tree in this model); raises
when a ref does not resolve. -/
def diffText (w : GitWorld) (st : RepoState) (a b : String) : Except GitError String :=
  match resolveRef w st a, resolveRef w st b with
  | some x, some y => Except.ok (if x = y then "" else "diff " ++ x ++ " " ++ y)
  | none, _ => Except.error (GitError.unknownRef a)
  | _, none => Except.error (GitError.unknownRef b)

/-- `git clone --no-checkout --origin upstream url path`: remote-tracking refs
for every upstream branch, a single local branch for the upstream `HEAD`. -/
def cloneRepo (w : GitWorld) (upstream : String) : RepoState :=
  let rbs := w.upstreamBranches.map (fun b => (upstream ++ "/" ++ b.1, b.2))
  match alookup w.upstreamBranches w.upstreamHead with
  | some tip =>
    { dirty := false, localBranches := [(w.upstreamHead, tip)], remoteBranches := rbs,
      headSha := tip, activeBranch := some w.upstreamHead }
  | none =>
    { dirty := false, localBranches := [], remoteBranches := rbs,
      headSha := "", activeBranch := none }

/-- The CLI argument record of `gitctl update`.  The `rebase` flag is part of
the documented operation surface; the handler body never reads it. -/
structure UpdateArgs where
  project : List String
  verbose : Bool
  rebase : Bool
deriving Repr, DecidableEq

/-- Accumulator of the floating-mode branch loop: current repository state,
the `ok` and `updated` flags of the source, and the warnings logged so far. -/
structure FloatAcc where
  st : RepoState
  ok : Bool
  updated : Bool
  logs : List LogEntry
deriving Repr, DecidableEq

/-- One iteration of the floating-mode branch loop (source lines 160-188):
for a mapped pair present both remotely and locally whose tips differ, check
out the local branch and attempt a fast-forward-only pull; classify a failure
by its stderr text. The name sets are the ones computed before the loop. -/
def updateBranchStep (w : GitWorld) (upstream name : String) (rbn lbn : List String)
    (acc : FloatAcc) (rl : String × String) : FloatAcc :=
  if rl.1 ∈ rbn ∧ rl.2 ∈ lbn then
    if revParseD w acc.st rl.1 = revParseD w acc.st rl.2 then acc
    else
      let st1 := checkoutD w acc.st rl.2
      let pr := pull w st1 upstream rl.2
      if pr.status ≠ 0 then
        if nonFastForward pr.stderr then
          { st := pr.st, ok := false, updated := acc.updated,
            logs := acc.logs ++ [LogEntry.conflictWarn name rl.2] }
        else
          { st := pr.st, ok := false, updated := acc.updated,
            logs := acc.logs ++ [LogEntry.updateFailure name pr.stderr] }
      else { st := pr.st, ok := acc.ok, updated := true, logs := acc.logs }
  else acc

/-- The whole floating-mode branch loop over the configured mapping. -/
def updateFloating (w : GitWorld) (upstream name : String) (rbn lbn : List String)
    (branches : List (String × String)) (st : RepoState) : FloatAcc :=
  branches.foldl (updateBranchStep w upstream name rbn lbn)
    { st := st, ok := true, updated := false, logs := [] }

/-- Tracking-branch creation after clone (source lines 211-217): for every
mapped pair whose remote branch exists and whose local name does not yet,
create the local branch at the remote tip.  The name sets are computed once
before the loop, as in the source. -/
def cloneTrackStep (rbn lbn : List String) (st : RepoState) (rl : String × String) : RepoState :=
  if rl.1 ∈ rbn ∧ ¬ rl.2 ∈ lbn then
    match alookup st.remoteBranches rl.1 with
    | some tip => { st with localBranches := upsert st.localBranches rl.2 tip }
    | none => st
  else st

/-- The whole tracking-branch loop after clone. -/
def cloneTracking (branches : List (String × String)) (rbn lbn : List String)
    (st : RepoState) : RepoState :=
  branches.foldl (cloneTrackStep rbn lbn) st

/-- Per-project body of `gitctl_update` (source lines 133-220). -/
def gitctl_update_project (cfg : Config) (w : GitWorld) (verbose : Bool) (fs : FS)
    (proj : Project) : Except GitError (FS × List LogEntry) :=
  match alookup fs proj.path with
  | some repo0 =>
    match fetch w proj.path cfg.upstream repo0 with
    | Except.error e => Except.error e
    | Except.ok repo1 =>
      if repo1.dirty then
        Except.ok (fsSet fs proj.path repo1, [LogEntry.dirty proj.name])
      else if is_sha1 proj.treeish then
        let pinned_at := revParseD w repo1 "HEAD"
        match resetHard w repo1 proj.treeish with
        | Except.error e => Except.error e
        | Except.ok repo2 =>
          let report :=
            if pinned_at = proj.treeish then
              (if verbose then [LogEntry.okVerbose proj.name] else [])
            else [LogEntry.checkedOutRevision proj.name proj.treeish]
          Except.ok (fsSet fs proj.path repo2, report)
      else
        match active_branch repo1 with
        | Except.error e => Except.error e
        | Except.ok treeish =>
          let rbn := repo1.remoteBranches.map Prod.fst
          let lbn := repo1.localBranches.map Prod.fst
          let acc := updateFloating w cfg.upstream proj.name rbn lbn cfg.branches repo1
          match checkout w acc.st treeish with
          | Except.error e => Except.error e
          | Except.ok repo2 =>
            let report :=
              if acc.ok then
                (if acc.updated then [LogEntry.updated proj.name]
                 else if verbose then [LogEntry.okVerbose proj.name] else [])
              else []
            Except.ok (fsSet fs proj.path repo2, acc.logs ++ report)
  | none =>
    let repo0 := cloneRepo w cfg.upstream
    let rbn := repo0.remoteBranches.map Prod.fst
    let lbn := repo0.localBranches.map Prod.fst
    let repo1 := cloneTracking cfg.branches rbn lbn repo0
    match checkout w repo1 proj.treeish with
    | Except.error e => Except.error e
    | Except.ok repo2 =>
      Except.ok (fsSet fs proj.path repo2, [LogEntry.cloned proj.name proj.treeish])

/-- The per-project loop of `gitctl_update`, accumulating log output; a
raised `GitError` aborts the remaining projects (the source has no handler
around the loop body). -/
def updateLoop (cfg : Config) (w : GitWorld) (verbose : Bool) :
    List Project → FS → List LogEntry → FS × List LogEntry × Option GitError
  | [], fs, logs => (fs, logs, none)
  | p :: rest, fs, logs =>
    match gitctl_update_project cfg w verbose fs p with
    | Except.error e => (fs, logs, some e)
    | Except.ok (fs', l) => updateLoop cfg w verbose rest fs' (logs ++ l)

/-- `gitctl_update` (source lines 124-220): iterate the selected projects. -/
def gitctl_update (cfg : Config) (projects : List Project) (args : UpdateArgs)
    (w : GitWorld) (fs : FS) : FS × List LogEntry × Option GitError :=
  updateLoop cfg w args.verbose (filter_projects projects args.project) fs []

/-- The CLI argument record of `gitctl fetch`. -/
structure FetchArgs where
  project : List String
deriving Repr, DecidableEq

/-- Per-project body of `gitctl_fetch` (source lines 94-97). -/
def gitctl_fetch_project (cfg : Config) (w : GitWorld) (fs : FS) (proj : Project) :
    Except GitError (FS × List LogEntry) :=
  match alookup fs proj.path with
  | none => Except.error (GitError.missingRepo proj.path)
  | some repo0 =>
    match fetch w proj.path cfg.upstream repo0 with
    | Except.error e => Except.error e
    | Except.ok repo1 =>
      Except.ok (fsSet fs proj.path repo1, [LogEntry.fetched proj.name])

/-- The per-project loop of `gitctl_fetch`. -/
def fetchLoop (cfg : Config) (w : GitWorld) :
    List Project → FS → List LogEntry → FS × List LogEntry × Option GitError
  | [], fs, logs => (fs, logs, none)
  | p :: rest, fs, logs =>
    match gitctl_fetch_project cfg w fs p with
    | Except.error e => (fs, logs, some e)
    | Except.ok (fs', l) => fetchLoop cfg w rest fs' (logs ++ l)

/-- `gitctl_fetch` (source lines 89-97). -/
def gitctl_fetch (cfg : Config) (projects : List Project) (args : FetchArgs)
    (w : GitWorld) (fs : FS) : FS × List LogEntry × Option GitError :=
  fetchLoop cfg w (filter_projects projects args.project) fs []

/-- The CLI argument record of `gitctl status`. -/
structure StatusArgs where
  project : List String
  no_fetch : Bool
  verbose : Bool
deriving Repr, DecidableEq

/-- The branch loop of `gitctl_status` (source lines 240-244): diff every
mapped pair whose remote branch exists; a non-empty diff marks the branch
out of sync and clears the project verdict. -/
def statusBranchLoop (w : GitWorld) (name : String) (st : RepoState) (rbn : List String) :
    List (String × String) → Bool → List LogEntry → Except GitError (Bool × List LogEntry)
  | [], uptodate, logs => Except.ok (uptodate, logs)
  | rl :: rest, uptodate, logs =>
    if rl.1 ∈ rbn then
      match diffText w st rl.1 rl.2 with
      | Except.error e => Except.error e
      | Except.ok d =>
        if d.length > 0 then
          statusBranchLoop w name st rbn rest false (logs ++ [LogEntry.branchOutOfSync name rl.2])
        else statusBranchLoop w name st rbn rest uptodate logs
    else statusBranchLoop w name st rbn rest uptodate logs

/-- Per-project body of `gitctl_status` (source lines 227-246). -/
def gitctl_status_project (cfg : Config) (args : StatusArgs) (w : GitWorld) (fs : FS)
    (proj : Project) : Except GitError (FS × List LogEntry) :=
  match alookup fs proj.path with
  | none => Except.error (GitError.missingRepo proj.path)
  | some repo0 =>
    match (if args.no_fetch then Except.ok repo0
           else fetch w proj.path cfg.upstream repo0 : Except GitError RepoState) with
    | Except.error e => Except.error e
    | Except.ok repo1 =>
      if repo1.dirty then
        Except.ok (fsSet fs proj.path repo1, [LogEntry.uncommittedChanges proj.name])
      else
        let rbn := repo1.remoteBranches.map Prod.fst
        match statusBranchLoop w proj.name repo1 rbn cfg.branches true [] with
        | Except.error e => Except.error e
        | Except.ok (uptodate, logs) =>
          Except.ok (fsSet fs proj.path repo1,
            logs ++ (if uptodate ∧ args.verbose then [LogEntry.okVerbose proj.name] else []))

/-- The per-project loop of `gitctl_status`. -/
def statusLoop (cfg : Config) (args : StatusArgs) (w : GitWorld) :
    List Project → FS → List LogEntry → FS × List LogEntry × Option GitError
  | [], fs, logs => (fs, logs, none)
  | p :: rest, fs, logs =>
    match gitctl_status_project cfg args w fs p with
    | Except.error e => (fs, logs, some e)
    | Except.ok (fs', l) => statusLoop cfg args w rest fs' (logs ++ l)

/-- `gitctl_status` (source lines 222-246). -/
def gitctl_status (cfg : Config) (projects : List Project) (args : StatusArgs)
    (w : GitWorld) (fs : FS) : FS × List LogEntry × Option GitError :=
  statusLoop cfg args w (filter_projects projects args.project) fs []

/-- The requested stage transition of `gitctl pending`; the CLI sets exactly
one of the `--production`, `--staging`, `--dev` flags. -/
inductive PendingMode where
  | production
  | staging
  | dev
deriving Repr, DecidableEq

/-- The CLI argument record of `gitctl pending`.  `show_config` is the
regenerate switch; `project` is the caller selection, which the handler body
never reads. -/
structure PendingArgs where
  project : List String
  mode : PendingMode
  show_config : Bool
  no_fetch : Bool
  diff : Bool
  verbose : Bool
deriving Repr, DecidableEq

/-- The out-of-sync pre-check of `gitctl_pending` for non-production stages
(source lines 289-298): warn for every mapped branch whose remote exists and
differs, and flag the project for skipping.  The remote names are the ones
read before the fetch, the diff runs on the fetched state, as in the
source. -/
def pendingSyncCheck (w : GitWorld) (name : String) (st : RepoState) (rbn : List String) :
    List (String × String) → Bool → List LogEntry → Except GitError (Bool × List LogEntry)
  | [], skip, logs => Except.ok (skip, logs)
  | rl :: rest, skip, logs =>
    if rl.1 ∈ rbn then
      match diffText w st rl.1 rl.2 with
      | Except.error e => Except.error e
      | Except.ok d =>
        if d.length > 0 then
          pendingSyncCheck w name st rbn rest true (logs ++ [LogEntry.branchOutOfSync name rl.2])
        else pendingSyncCheck w name st rbn rest skip logs
    else pendingSyncCheck w name st rbn rest skip logs

/-- Endpoint resolution of `gitctl_pending` (source lines 300-330): by stage,
either a warn-and-skip log, or the resolved `from` and `to` commits. -/
def pendingEndpoints (cfg : Config) (w : GitWorld) (mode : PendingMode) (lbn : List String)
    (st : RepoState) (proj : Project) : Except GitError (Sum (List LogEntry) (String × String)) :=
  match mode with
  | PendingMode.production =>
    if ¬ cfg.productionBranch ∈ lbn then
      Except.ok (Sum.inl [LogEntry.branchDoesNotExist proj.name cfg.productionBranch])
    else if ¬ is_sha1 proj.treeish then
      Except.ok (Sum.inl [LogEntry.treeishNotSha1 proj.name proj.treeish])
    else
      match rev_parse w st proj.treeish with
      | Except.error e => Except.error e
      | Except.ok fromRev =>
        match rev_parse w st (cfg.upstream ++ "/" ++ cfg.productionBranch) with
        | Except.error e => Except.error e
        | Except.ok toRev => Except.ok (Sum.inr (fromRev, toRev))
  | PendingMode.staging =>
    if ¬ cfg.productionBranch ∈ lbn then
      Except.ok (Sum.inl [LogEntry.branchDoesNotExist proj.name cfg.productionBranch])
    else if ¬ cfg.stagingBranch ∈ lbn then
      Except.ok (Sum.inl [LogEntry.branchDoesNotExist proj.name cfg.stagingBranch])
    else
      match rev_parse w st cfg.productionBranch with
      | Except.error e => Except.error e
      | Except.ok fromRev =>
        match rev_parse w st cfg.stagingBranch with
        | Except.error e => Except.error e
        | Except.ok toRev => Except.ok (Sum.inr (fromRev, toRev))
  | PendingMode.dev =>
    if ¬ cfg.developmentBranch ∈ lbn then
      Except.ok (Sum.inl [LogEntry.branchDoesNotExist proj.name cfg.developmentBranch])
    else if ¬ cfg.stagingBranch ∈ lbn then
      Except.ok (Sum.inl [LogEntry.branchDoesNotExist proj.name cfg.stagingBranch])
    else
      match rev_parse w st cfg.stagingBranch with
      | Except.error e => Except.error e
      | Except.ok fromRev =>
        match rev_parse w st cfg.developmentBranch with
        | Except.error e => Except.error e
        | Except.ok toRev => Except.ok (Sum.inr (fromRev, toRev))

/-- The comparison step of `gitctl_pending` (source lines 332-357): equal
endpoints report OK (verbose, non-regenerate); otherwise regenerate mode for
the production stage mutates the treeish silently, and every other mode
reports how many commits the target is ahead, optionally with the patch. -/
def pendingCompare (w : GitWorld) (cfg : Config) (args : PendingArgs) (proj : Project)
    (fromRev toRev : String) : Project × List LogEntry :=
  if fromRev ≠ toRev then
    if args.show_config ∧ args.mode = PendingMode.production then
      ({ proj with treeish := toRev }, [])
    else
      let commits := (gitLogOnelineRange w.dag fromRev toRev).length
      let report :=
        match args.mode with
        | PendingMode.production =>
          [LogEntry.aheadOfPinned proj.name cfg.productionBranch commits toRev]
        | PendingMode.staging =>
          [LogEntry.ahead proj.name cfg.stagingBranch commits cfg.productionBranch]
        | PendingMode.dev =>
          [LogEntry.ahead proj.name cfg.developmentBranch commits cfg.stagingBranch]
      let report :=
        if args.diff then report ++ [LogEntry.diffLog (gitLogStatTwoRevs w.dag fromRev toRev)]
        else report
      (proj, report)
  else
    (proj, if args.verbose ∧ ¬ args.show_config then [LogEntry.okVerbose proj.name] else [])

/-- Per-project body of `gitctl_pending` (source lines 255-357). -/
def gitctl_pending_project (cfg : Config) (args : PendingArgs) (w : GitWorld) (fs : FS)
    (proj : Project) : Except GitError (Project × FS × List LogEntry) :=
  match alookup fs proj.path with
  | none => Except.error (GitError.missingRepo proj.path)
  | some repo0 =>
    let lbn := repo0.localBranches.map Prod.fst
    let rbn := repo0.remoteBranches.map Prod.fst
    if ¬ cfg.developmentBranch ∈ lbn then
      Except.ok (proj, fsSet fs proj.path repo0,
        if ¬ args.show_config ∧ args.verbose then [LogEntry.skipping proj.name] else [])
    else if repo0.dirty then
      Except.ok (proj, fsSet fs proj.path repo0, [LogEntry.uncommittedChanges proj.name])
    else
      match (if args.no_fetch then Except.ok repo0
             else fetch w proj.path cfg.upstream repo0 : Except GitError RepoState) with
      | Except.error e => Except.error e
      | Except.ok repo1 =>
        let syncRes : Except GitError (Bool × List LogEntry) :=
          if args.mode ≠ PendingMode.production then
            pendingSyncCheck w proj.name repo1 rbn cfg.branches false []
          else Except.ok (false, [])
        match syncRes with
        | Except.error e => Except.error e
        | Except.ok (skip, warns) =>
          if skip then Except.ok (proj, fsSet fs proj.path repo1, warns)
          else
            match pendingEndpoints cfg w args.mode lbn repo1 proj with
            | Except.error e => Except.error e
            | Except.ok (Sum.inl skipLogs) =>
              Except.ok (proj, fsSet fs proj.path repo1, warns ++ skipLogs)
            | Except.ok (Sum.inr (fromRev, toRev)) =>
              let pr := pendingCompare w cfg args proj fromRev toRev
              Except.ok (pr.1, fsSet fs proj.path repo1, warns ++ pr.2)

/-- The per-project loop of `gitctl_pending`, collecting the possibly-mutated
project list. -/
def pendingLoop (cfg : Config) (args : PendingArgs) (w : GitWorld) :
    List Project → FS → List Project → List LogEntry →
    List Project × FS × List LogEntry × Option GitError
  | [], fs, ps, logs => (ps, fs, logs, none)
  | p :: rest, fs, ps, logs =>
    match gitctl_pending_project cfg args w fs p with
    | Except.error e => (ps, fs, logs, some e)
    | Except.ok (p', fs', l) => pendingLoop cfg args w rest fs' (ps ++ [p']) (logs ++ l)

/-- `gitctl_pending` (source lines 248-360): iterate every project in the
registry (no selection filter); when regenerate mode was active for the
production stage, serialize the possibly-mutated project list afterwards. -/
def gitctl_pending (cfg : Config) (projects : List Project) (args : PendingArgs)
    (w : GitWorld) (fs : FS) : List Project × FS × List LogEntry × Option GitError :=
  match pendingLoop cfg args w projects fs [] [] with
  | (ps, fs', logs, none) =>
    if args.show_config ∧ args.mode = PendingMode.production then
      (ps, fs', logs ++ [LogEntry.externalsOutput ps], none)
    else (ps, fs', logs, none)
  | (ps, fs', logs, some e) => (ps, fs', logs, some e)

/-- The project name a log entry reports on (the two loop-free payload
entries carry none). -/
def entryName : LogEntry → Option String
  | LogEntry.fetched n => some n
  | LogEntry.dirty n => some n
  | LogEntry.uncommittedChanges n => some n
  | LogEntry.conflictWarn n _ => some n
  | LogEntry.updateFailure n _ => some n
  | LogEntry.checkedOutRevision n _ => some n
  | LogEntry.updated n => some n
  | LogEntry.okVerbose n => some n
  | LogEntry.cloned n _ => some n
  | LogEntry.branchOutOfSync n _ => some n
  | LogEntry.skipping n => some n
  | LogEntry.branchDoesNotExist n _ => some n
  | LogEntry.treeishNotSha1 n _ => some n
  | LogEntry.aheadOfPinned n _ _ _ => some n
  | LogEntry.ahead n _ _ _ => some n
  | LogEntry.diffLog _ => none
  | LogEntry.externalsOutput _ => none

/-- The invariant of the floating-mode loop accumulator: warnings imply a
cleared `ok` flag, and every accumulated entry is a conflict warning or an
update failure for this project. -/
def FloatInv (n : String) (acc : FloatAcc) : Prop :=
  (acc.logs ≠ [] → acc.ok = false) ∧
  (∀ e ∈ acc.logs, (∃ b, e = LogEntry.conflictWarn n b) ∨ (∃ s, e = LogEntry.updateFailure n s))

/-- The floating-mode loop as run by `gitctl_update_project` on an existing
clean checkout, after the fetch. -/
def floatingRun (cfg : Config) (w : GitWorld) (proj : Project) (repo : RepoState) : FloatAcc :=
  let repo1 := fetchedRepo w cfg.upstream repo
  updateFloating w cfg.upstream proj.name (repo1.remoteBranches.map Prod.fst)
    (repo1.localBranches.map Prod.fst) cfg.branches repo1

/-- The aggregate report of floating mode (source lines 192-204 with a
branch-name treeish and no recorded pin). -/
def floatReport (vb : Bool) (name : String) (acc : FloatAcc) : List LogEntry :=
  if acc.ok then
    (if acc.updated then [LogEntry.updated name]
     else if vb then [LogEntry.okVerbose name] else [])
  else []


/-! ## Concrete inputs used in witnesses and counterexamples -/

def shaA : String := "aaaaaaaaaaaaaaaaaaaaaaaaaaaaaaaaaaaaaaaa"

def shaB : String := "bbbbbbbbbbbbbbbbbbbbbbbbbbbbbbbbbbbbbbbb"

/-- A one-mapping configuration with upstream remote named `up`. -/
def exCfg : Config :=
  { upstream := "up", branches := [("up/devel", "devel")],
    developmentBranch := "devel", stagingBranch := "staging",
    productionBranch := "production" }

/-- A two-commit upstream history on branch `devel`. -/
def exWorld : GitWorld :=
  { dag := [("c1", []), ("c2", ["c1"])],
    upstreamBranches := [("devel", "c2")],
    upstreamHead := "devel", failFetch := [] }

/-- A dirty checkout that has never fetched (empty remote-tracking list). -/
def dirtyRepo : RepoState :=
  { dirty := true, localBranches := [("devel", "c1")], remoteBranches := [],
    headSha := "c1", activeBranch := some "devel" }

/-- A clean checkout fully synchronized with `exWorld`. -/
def cleanRepo : RepoState :=
  { dirty := false, localBranches := [("devel", "c2")],
    remoteBranches := [("up/devel", "c2")],
    headSha := "c2", activeBranch := some "devel" }

def exProj : Project := { name := "p", url := "git:p", treeish := "devel", path := "/p" }

/-- A two-commit pinnable history with a `production` branch. -/
def pinWorld : GitWorld :=
  { dag := [(shaA, []), (shaB, [shaA])],
    upstreamBranches := [("production", shaB)],
    upstreamHead := "production", failFetch := [] }

def pinProj : Project := { name := "q", url := "git:q", treeish := shaA, path := "/q" }

/-- A dirty detached checkout sitting on the wrong commit for its pin. -/
def pinDirtyRepo : RepoState :=
  { dirty := true, localBranches := [], remoteBranches := [("up/production", shaB)],
    headSha := shaB, activeBranch := none }

/-- A clean detached checkout sitting on the wrong commit for its pin. -/
def pinCleanRepo : RepoState :=
  { dirty := false, localBranches := [], remoteBranches := [("up/production", shaB)],
    headSha := shaB, activeBranch := none }

/-- World for the conflict-plus-fast-forward scenario: local `alpha` has
diverged from upstream, local `beta` is strictly behind. -/
def floatWorld : GitWorld :=
  { dag := [("a1", []), ("a2", ["a1"]), ("a3", ["a1"]), ("b1", []), ("b2", ["b1"])],
    upstreamBranches := [("alpha", "a2"), ("beta", "b2")],
    upstreamHead := "alpha", failFetch := [] }

def floatCfg : Config :=
  { upstream := "up", branches := [("up/alpha", "alpha"), ("up/beta", "beta")],
    developmentBranch := "devel", stagingBranch := "staging",
    productionBranch := "production" }

def floatRepo : RepoState :=
  { dirty := false, localBranches := [("alpha", "a3"), ("beta", "b1")],
    remoteBranches := [("up/alpha", "a2"), ("up/beta", "b2")],
    headSha := "a3", activeBranch := some "alpha" }

def floatProj : Project := { name := "p", url := "git:p", treeish := "alpha", path := "/p" }

/-- World where the first project path is in the fetch-failure set. -/
def failWorld : GitWorld :=
  { dag := [("c1", []), ("c2", ["c1"])],
    upstreamBranches := [("devel", "c2")],
    upstreamHead := "devel", failFetch := ["/p1"] }

def failP1 : Project := { name := "p1", url := "git:p1", treeish := "devel", path := "/p1" }

def failP2 : Project := { name := "p2", url := "git:p2", treeish := "devel", path := "/p2" }

def failFS : FS := [("/p1", cleanRepo), ("/p2", cleanRepo)]

/-- The floating example state after the fast-forward of `beta`. -/
def floatRepoBeta2 : RepoState :=
  { dirty := false, localBranches := [("alpha", "a3"), ("beta", "b2")],
    remoteBranches := [("up/alpha", "a2"), ("up/beta", "b2")],
    headSha := "b2", activeBranch := some "beta" }

/-- The floating example state after checking the original branch back out. -/
def floatRepoFinal : RepoState :=
  { dirty := false, localBranches := [("alpha", "a3"), ("beta", "b2")],
    remoteBranches := [("up/alpha", "a2"), ("up/beta", "b2")],
    headSha := "a3", activeBranch := some "alpha" }

/-- Decidable equality for `Except` results, used to evaluate runs on
concrete inputs. -/
instance instDecidableEqExcept {e a : Type} [DecidableEq e] [DecidableEq a] :
    DecidableEq (Except e a) := fun x y =>
  match x, y with
  | Except.ok v, Except.ok w =>
    if h : v = w then isTrue (by rw [h])
    else isFalse (by intro hc; injection hc; contradiction)
  | Except.error v, Except.error w =>
    if h : v = w then isTrue (by rw [h])
    else isFalse (by intro hc; injection hc; contradiction)
  | Except.ok _, Except.error _ => isFalse (fun hc => Except.noConfusion hc)
  | Except.error _, Except.ok _ => isFalse (fun hc => Except.noConfusion hc)

/-- A clean checkout with the pipeline branches, pinned at the older commit,
for exercising the pending production comparison. -/
def pendRepo : RepoState :=
  { dirty := false,
    localBranches := [("devel", shaA), ("production", shaA)],
    remoteBranches := [("up/production", shaA)],
    headSha := shaA, activeBranch := some "devel" }

/-! ## Lemmas about the association-list primitives -/

theorem alookup_upsert_self {α : Type} (m : List (String × α)) (k : String) (v : α) :
    alookup (upsert m k v) k = some v := by
  induction m with
  | nil => simp [upsert, alookup]
  | cons p rest ih =>
    obtain ⟨k', v'⟩ := p
    by_cases h : k' = k
    · simp [upsert, h, alookup]
    · simp [upsert, h, alookup, ih]

theorem alookup_upsert_ne {α : Type} (m : List (String × α)) (k k' : String) (v : α)
    (h : k ≠ k') : alookup (upsert m k v) k' = alookup m k' := by
  induction m with
  | nil => simp [upsert, alookup, h]
  | cons p rest ih =>
    obtain ⟨k0, v0⟩ := p
    by_cases h0 : k0 = k
    · subst h0
      simp [upsert, alookup, h]
    · simp [upsert, h0, alookup, ih]

theorem upsert_of_lookup {α : Type} (m : List (String × α)) (k : String) (v : α)
    (h : alookup m k = some v) : upsert m k v = m := by
  induction m with
  | nil => simp [alookup] at h
  | cons p rest ih =>
    obtain ⟨k0, v0⟩ := p
    by_cases h0 : k0 = k
    · subst h0
      have hv : v0 = v := by simpa [alookup] using h
      subst hv
      simp [upsert]
    · have h2 : alookup rest k = some v := by simpa [alookup, h0] using h
      simp [upsert, h0, ih h2]

theorem upsert_lookup_isSome {α : Type} (m : List (String × α)) (k k' : String) (v : α)
    (h : (alookup m k').isSome = true) : (alookup (upsert m k v) k').isSome = true := by
  by_cases he : k = k'
  · subst he
    rw [alookup_upsert_self]
    rfl
  · rw [alookup_upsert_ne m k k' v he]
    exact h

theorem fsSet_self (fs : FS) (p : String) (r : RepoState) (h : alookup fs p = some r) :
    fsSet fs p r = fs := upsert_of_lookup fs p r h

theorem alookup_fsSet_self (fs : FS) (p : String) (r : RepoState) :
    alookup (fsSet fs p r) p = some r := alookup_upsert_self fs p r

/-! ## Lemmas about remote-tracking ref names -/

theorem string_eq_of_data (a b : String) (h : a.data = b.data) : a = b := by
  cases a; cases b; exact congrArg String.mk h

theorem slash_key_data (u b : String) : (u ++ "/" ++ b).data = u.data ++ '/' :: b.data := by
  rw [String.data_append, String.data_append]
  simp

theorem slash_key_inj (u a b : String) (h : u ++ "/" ++ a = u ++ "/" ++ b) : a = b := by
  have hd := congrArg String.data h
  rw [slash_key_data, slash_key_data] at hd
  have h2 := List.append_cancel_left hd
  simp only [List.cons.injEq, true_and] at h2
  exact string_eq_of_data a b h2

theorem slash_mem_data (u b : String) : '/' ∈ (u ++ "/" ++ b).data := by
  rw [slash_key_data]
  simp

theorem slash_key_not_sha1 (u b : String) : is_sha1 (u ++ "/" ++ b) = false := by
  apply Bool.eq_false_iff.mpr
  intro h
  rw [is_sha1, Bool.and_eq_true] at h
  have hm : '/' ∈ (u ++ "/" ++ b).toList := slash_mem_data u b
  have h2 := List.all_eq_true.mp h.2 '/' hm
  exact absurd (of_decide_eq_true h2) (by decide)

theorem slash_key_ne_head (u b : String) : u ++ "/" ++ b ≠ "HEAD" := by
  intro h
  have hm := slash_mem_data u b
  rw [h] at hm
  exact absurd hm (by decide)

/-! ## Lemmas about ref resolution and fetch -/

theorem resolveRef_sha (w : GitWorld) (st : RepoState) (r : String)
    (h1 : is_sha1 r = true) (h2 : r ∈ shas w.dag) : resolveRef w st r = some r := by
  rw [resolveRef, if_pos ⟨h1, h2⟩]

theorem resolveRef_head (w : GitWorld) (st : RepoState) :
    resolveRef w st "HEAD" = some st.headSha := by
  have h1 : ¬ (is_sha1 "HEAD" = true ∧ "HEAD" ∈ shas w.dag) := fun hc => absurd hc.1 (by decide)
  rw [resolveRef, if_neg h1, if_pos rfl]

theorem revParseD_head (w : GitWorld) (st : RepoState) : revParseD w st "HEAD" = st.headSha := by
  rw [revParseD, resolveRef_head]
  rfl

theorem foldl_upsert_lookup_ne (u p : String) (bs : List (String × String)) :
    ∀ rb : List (String × String), ¬ p ∈ bs.map Prod.fst →
    alookup (bs.foldl (fun m b => upsert m (u ++ "/" ++ b.1) b.2) rb) (u ++ "/" ++ p)
      = alookup rb (u ++ "/" ++ p) := by
  induction bs with
  | nil => intro rb _; rfl
  | cons b t ih =>
    intro rb h
    rw [List.map_cons] at h
    have hb : ¬ b.1 = p := fun he => h (by simp [he])
    have ht : ¬ p ∈ t.map Prod.fst := fun he => h (by simp [he])
    rw [List.foldl_cons, ih _ ht]
    exact alookup_upsert_ne _ _ _ _ (fun he => hb (slash_key_inj u b.1 p he))

theorem fetchRemotes_lookup_aux (u p tip : String) (bs : List (String × String)) :
    ∀ rb : List (String × String), (bs.map Prod.fst).Nodup → alookup bs p = some tip →
    alookup (bs.foldl (fun m b => upsert m (u ++ "/" ++ b.1) b.2) rb) (u ++ "/" ++ p)
      = some tip := by
  induction bs with
  | nil => intro rb _ h; simp [alookup] at h
  | cons b t ih =>
    intro rb hnd h
    obtain ⟨k, v⟩ := b
    rw [List.map_cons, List.nodup_cons] at hnd
    rw [List.foldl_cons]
    by_cases hb : k = p
    · subst hb
      have hv : v = tip := by simpa [alookup] using h
      subst hv
      rw [foldl_upsert_lookup_ne u k t _ hnd.1]
      exact alookup_upsert_self rb _ _
    · have h2 : alookup t p = some tip := by simpa [alookup, hb] using h
      exact ih _ hnd.2 h2

theorem fetchRemotes_lookup (w : GitWorld) (u p tip : String) (rb : List (String × String))
    (hnd : (w.upstreamBranches.map Prod.fst).Nodup)
    (h : alookup w.upstreamBranches p = some tip) :
    alookup (fetchRemotes w u rb) (u ++ "/" ++ p) = some tip :=
  fetchRemotes_lookup_aux u p tip w.upstreamBranches rb hnd h

/-! ## Invariants of the floating-mode update loop -/

theorem updateBranchStep_inv (w : GitWorld) (u n : String) (rbn lbn : List String)
    (rl : String × String) (acc : FloatAcc) (h : FloatInv n acc) :
    FloatInv n (updateBranchStep w u n rbn lbn acc rl) := by
  rw [updateBranchStep]
  split
  · split
    · exact h
    · dsimp only
      split
      · split
        · refine ⟨fun _ => rfl, ?_⟩
          intro e he
          rcases List.mem_append.mp he with h1 | h1
          · exact h.2 e h1
          · exact Or.inl ⟨rl.2, List.mem_singleton.mp h1⟩
        · refine ⟨fun _ => rfl, ?_⟩
          intro e he
          rcases List.mem_append.mp he with h1 | h1
          · exact h.2 e h1
          · exact Or.inr ⟨_, List.mem_singleton.mp h1⟩
      · exact ⟨h.1, h.2⟩
  · exact h

theorem updateFloating_inv (w : GitWorld) (u n : String) (rbn lbn : List String)
    (branches : List (String × String)) (st : RepoState) :
    FloatInv n (updateFloating w u n rbn lbn branches st) := by
  rw [updateFloating]
  have hgen : ∀ (bs : List (String × String)) (acc : FloatAcc), FloatInv n acc →
      FloatInv n (bs.foldl (updateBranchStep w u n rbn lbn) acc) := by
    intro bs
    induction bs with
    | nil => intro acc h; exact h
    | cons rl rest ih =>
      intro acc h
      rw [List.foldl_cons]
      exact ih _ (updateBranchStep_inv w u n rbn lbn rl acc h)
  exact hgen branches _ ⟨fun hc => absurd rfl hc, fun e he => absurd he (List.not_mem_nil e)⟩

theorem checkoutD_localBranches (w : GitWorld) (st : RepoState) (r : String) :
    (checkoutD w st r).localBranches = st.localBranches := by
  rw [checkoutD, checkoutCore]
  cases h : alookup st.localBranches r with
  | some tip => rfl
  | none =>
    cases h2 : resolveRef w st r with
    | some s => rfl
    | none => rfl

theorem pull_localBranches_isSome (w : GitWorld) (st : RepoState) (u lcl br : String)
    (h : (alookup st.localBranches br).isSome = true) :
    (alookup (pull w st u lcl).st.localBranches br).isSome = true := by
  rw [pull]
  cases h1 : alookup w.upstreamBranches lcl with
  | none => exact h
  | some uptip =>
    cases h2 : alookup st.localBranches lcl with
    | none => exact h
    | some ltip =>
      by_cases h3 : ltip = uptip
      · simpa [h3] using h
      · by_cases h4 : ltip ∈ ancestors w.dag uptip
        · simp only [h3, h4, if_false, if_true, if_pos, if_neg, advanceBranch]
          exact upsert_lookup_isSome _ _ _ _ h
        · simpa [h3, h4] using h

theorem updateBranchStep_localBranches_isSome (w : GitWorld) (u n : String)
    (rbn lbn : List String) (rl : String × String) (acc : FloatAcc) (br : String)
    (h : (alookup acc.st.localBranches br).isSome = true) :
    (alookup (updateBranchStep w u n rbn lbn acc rl).st.localBranches br).isSome = true := by
  rw [updateBranchStep]
  split
  · split
    · exact h
    · have hc : (alookup (checkoutD w acc.st rl.2).localBranches br).isSome = true := by
        rw [checkoutD_localBranches]; exact h
      have hp := pull_localBranches_isSome w (checkoutD w acc.st rl.2) u rl.2 br hc
      dsimp only
      split
      · split
        · exact hp
        · exact hp
      · exact hp
  · exact h

theorem updateFloating_localBranches_isSome (w : GitWorld) (u n : String)
    (rbn lbn : List String) (branches : List (String × String)) (st : RepoState) (br : String)
    (h : (alookup st.localBranches br).isSome = true) :
    (alookup (updateFloating w u n rbn lbn branches st).st.localBranches br).isSome = true := by
  rw [updateFloating]
  have hgen : ∀ (bs : List (String × String)) (acc : FloatAcc),
      (alookup acc.st.localBranches br).isSome = true →
      (alookup ((bs.foldl (updateBranchStep w u n rbn lbn) acc)).st.localBranches br).isSome = true := by
    intro bs
    induction bs with
    | nil => intro acc hacc; exact hacc
    | cons rl rest ih =>
      intro acc hacc
      rw [List.foldl_cons]
      exact ih _ (updateBranchStep_localBranches_isSome w u n rbn lbn rl acc br hacc)
  exact hgen branches _ h

theorem checkout_eq_checkoutD_of_isSome (w : GitWorld) (st : RepoState) (r : String)
    (h : (alookup st.localBranches r).isSome = true) :
    checkout w st r = Except.ok (checkoutD w st r) := by
  rw [checkout, checkoutD, checkoutCore]
  cases hh : alookup st.localBranches r with
  | none => rw [hh] at h; simp at h
  | some tip => rfl

/-! ## Shape lemmas for the per-project update body -/

theorem fetchedRepo_dirty (w : GitWorld) (u : String) (st : RepoState) :
    (fetchedRepo w u st).dirty = st.dirty := rfl

theorem fetchedRepo_active (w : GitWorld) (u : String) (st : RepoState) :
    (fetchedRepo w u st).activeBranch = st.activeBranch := rfl

theorem fetchedRepo_local (w : GitWorld) (u : String) (st : RepoState) :
    (fetchedRepo w u st).localBranches = st.localBranches := rfl

theorem fetchedRepo_head (w : GitWorld) (u : String) (st : RepoState) :
    (fetchedRepo w u st).headSha = st.headSha := rfl

theorem active_branch_some (st : RepoState) (b : String) (h : st.activeBranch = some b) :
    active_branch st = Except.ok b := by
  unfold active_branch
  rw [h]

theorem update_project_dirty_shape (cfg : Config) (w : GitWorld) (vb : Bool) (fs : FS)
    (proj : Project) (repo : RepoState)
    (hlk : alookup fs proj.path = some repo)
    (hff : ¬ proj.path ∈ w.failFetch)
    (hdirty : repo.dirty = true) :
    gitctl_update_project cfg w vb fs proj =
      Except.ok (fsSet fs proj.path (fetchedRepo w cfg.upstream repo),
        [LogEntry.dirty proj.name]) := by
  simp only [gitctl_update_project, hlk, fetch, if_neg hff, fetchedRepo_dirty, hdirty,
    if_true, if_pos]

theorem update_project_pinned_shape (cfg : Config) (w : GitWorld) (vb : Bool) (fs : FS)
    (proj : Project) (repo : RepoState)
    (hlk : alookup fs proj.path = some repo)
    (hff : ¬ proj.path ∈ w.failFetch)
    (hdirty : repo.dirty = false)
    (hsha : is_sha1 proj.treeish = true)
    (hdag : proj.treeish ∈ shas w.dag) :
    gitctl_update_project cfg w vb fs proj =
      Except.ok (fsSet fs proj.path (resetHardState (fetchedRepo w cfg.upstream repo) proj.treeish),
        if repo.headSha = proj.treeish then (if vb then [LogEntry.okVerbose proj.name] else [])
        else [LogEntry.checkedOutRevision proj.name proj.treeish]) := by
  simp only [gitctl_update_project, hlk, fetch, if_neg hff, fetchedRepo_dirty, hdirty,
    Bool.false_eq_true, if_false, hsha, if_true, resetHard,
    resolveRef_sha w (fetchedRepo w cfg.upstream repo) proj.treeish hsha hdag,
    revParseD_head, fetchedRepo_head]

theorem update_project_floating_shape (cfg : Config) (w : GitWorld) (vb : Bool) (fs : FS)
    (proj : Project) (repo : RepoState) (br : String)
    (hlk : alookup fs proj.path = some repo)
    (hff : ¬ proj.path ∈ w.failFetch)
    (hdirty : repo.dirty = false)
    (hsha : is_sha1 proj.treeish = false)
    (hact : repo.activeBranch = some br)
    (hbr : (alookup repo.localBranches br).isSome = true) :
    gitctl_update_project cfg w vb fs proj =
      Except.ok (fsSet fs proj.path (checkoutD w (floatingRun cfg w proj repo).st br),
        (floatingRun cfg w proj repo).logs ++ floatReport vb proj.name (floatingRun cfg w proj repo)) := by
  have hbr1 : (alookup (fetchedRepo w cfg.upstream repo).localBranches br).isSome = true := by
    rw [fetchedRepo_local]; exact hbr
  have hacc := updateFloating_localBranches_isSome w cfg.upstream proj.name
    ((fetchedRepo w cfg.upstream repo).remoteBranches.map Prod.fst)
    ((fetchedRepo w cfg.upstream repo).localBranches.map Prod.fst)
    cfg.branches (fetchedRepo w cfg.upstream repo) br hbr1
  have hact1 : (fetchedRepo w cfg.upstream repo).activeBranch = some br := by
    rw [fetchedRepo_active]; exact hact
  simp only [gitctl_update_project, hlk, fetch, if_neg hff, fetchedRepo_dirty, hdirty,
    Bool.false_eq_true, if_false, hsha, active_branch_some _ _ hact1,
    checkout_eq_checkoutD_of_isSome w _ br hacc, floatingRun, floatReport]

/-! ## Shape lemmas for the dirty paths of status and pending -/

theorem status_project_dirty_shape (cfg : Config) (sargs : StatusArgs) (w : GitWorld)
    (fs : FS) (proj : Project) (repo : RepoState)
    (hlk : alookup fs proj.path = some repo)
    (hnf : sargs.no_fetch = false)
    (hff : ¬ proj.path ∈ w.failFetch)
    (hdirty : repo.dirty = true) :
    gitctl_status_project cfg sargs w fs proj =
      Except.ok (fsSet fs proj.path (fetchedRepo w cfg.upstream repo),
        [LogEntry.uncommittedChanges proj.name]) := by
  simp only [gitctl_status_project, hlk, hnf, Bool.false_eq_true, if_false, fetch,
    if_neg hff, fetchedRepo_dirty, hdirty, if_true, if_pos]

theorem pending_project_dirty_shape (cfg : Config) (pargs : PendingArgs) (w : GitWorld)
    (fs : FS) (proj : Project) (repo : RepoState)
    (hlk : alookup fs proj.path = some repo)
    (hdev : cfg.developmentBranch ∈ repo.localBranches.map Prod.fst)
    (hdirty : repo.dirty = true) :
    gitctl_pending_project cfg pargs w fs proj =
      Except.ok (proj, fsSet fs proj.path repo, [LogEntry.uncommittedChanges proj.name]) := by
  simp only [gitctl_pending_project, hlk, if_neg (not_not_intro hdev), hdirty, if_true, if_pos]

/-! ## Lemmas about the clone path -/

theorem resetHardState_head (st : RepoState) (s : String) :
    (resetHardState st s).headSha = s := rfl

theorem cloneTrackStep_lookup_none (rbn lbn : List String) (st : RepoState)
    (rl : String × String) (k : String)
    (h1 : alookup st.localBranches k = none) (h2 : rl.2 ≠ k) :
    alookup (cloneTrackStep rbn lbn st rl).localBranches k = none := by
  rw [cloneTrackStep]
  split
  · cases h : alookup st.remoteBranches rl.1 with
    | some tip =>
      show alookup (upsert st.localBranches rl.2 tip) k = none
      rw [alookup_upsert_ne _ _ _ _ h2]
      exact h1
    | none => exact h1
  · exact h1

theorem alookup_cloneTracking_none (branches : List (String × String)) (rbn lbn : List String)
    (st : RepoState) (k : String)
    (h1 : alookup st.localBranches k = none)
    (h2 : ∀ rl ∈ branches, rl.2 ≠ k) :
    alookup (cloneTracking branches rbn lbn st).localBranches k = none := by
  rw [cloneTracking]
  have hgen : ∀ (bs : List (String × String)) (st0 : RepoState),
      alookup st0.localBranches k = none → (∀ rl ∈ bs, rl.2 ≠ k) →
      alookup ((bs.foldl (cloneTrackStep rbn lbn) st0)).localBranches k = none := by
    intro bs
    induction bs with
    | nil => intro st0 ha _; exact ha
    | cons rl rest ih =>
      intro st0 ha hb
      rw [List.foldl_cons]
      exact ih _ (cloneTrackStep_lookup_none rbn lbn st0 rl k ha (hb rl (by simp)))
        (fun r hr => hb r (by simp [hr]))
  exact hgen branches st h1 h2

/-! ## Claim C1 -/

/-- C1 counterexample: the claim asserts a dirty project is never fetched by
`update`; in this run the project is dirty and duly reported Dirty, yet its
remote-tracking refs change from empty to the fetched upstream tip, i.e. a
fetch was performed on its repository. -/
theorem C1_counterexample :
    dirtyRepo.dirty = true ∧
    (gitctl_update exCfg [exProj] ⟨[], false, false⟩ exWorld [("/p", dirtyRepo)]).2.1
      = [LogEntry.dirty "p"] ∧
    dirtyRepo.remoteBranches = [] ∧
    (alookup (gitctl_update exCfg [exProj] ⟨[], false, false⟩ exWorld [("/p", dirtyRepo)]).1 "/p").map
        RepoState.remoteBranches = some [("up/devel", "c2")] := by
  decide

/-- C1 (amended): a dirty project is skipped before any reset, checkout or
pull, is reported Dirty, and is excluded from all comparisons; however
`update` and `status` do fetch it, because their fetch precedes the dirty
check (only the remote-tracking refs change), while `pending` checks the
dirty flag before its fetch, so there the project's state is completely
unchanged. -/
theorem C1_dirty_isolation (cfg : Config) (w : GitWorld) (vb : Bool) (sargs : StatusArgs)
    (pargs : PendingArgs) (fs : FS) (proj : Project) (repo : RepoState)
    (hlk : alookup fs proj.path = some repo)
    (hdirty : repo.dirty = true)
    (hff : ¬ proj.path ∈ w.failFetch)
    (hdev : cfg.developmentBranch ∈ repo.localBranches.map Prod.fst) :
    gitctl_update_project cfg w vb fs proj =
      Except.ok (fsSet fs proj.path (fetchedRepo w cfg.upstream repo),
        [LogEntry.dirty proj.name]) ∧
    (sargs.no_fetch = false →
      gitctl_status_project cfg sargs w fs proj =
        Except.ok (fsSet fs proj.path (fetchedRepo w cfg.upstream repo),
          [LogEntry.uncommittedChanges proj.name])) ∧
    gitctl_pending_project cfg pargs w fs proj =
      Except.ok (proj, fs, [LogEntry.uncommittedChanges proj.name]) := by
  refine ⟨update_project_dirty_shape cfg w vb fs proj repo hlk hff hdirty,
    fun hnf => status_project_dirty_shape cfg sargs w fs proj repo hlk hnf hff hdirty, ?_⟩
  rw [pending_project_dirty_shape cfg pargs w fs proj repo hlk hdev hdirty,
    fsSet_self fs proj.path repo hlk]

/-- Witness for C1: the pending handler leaves the dirty example project
completely untouched and reports uncommitted changes. -/
theorem C1_dirty_isolation_witness :
    gitctl_pending_project exCfg ⟨[], PendingMode.production, false, false, false, false⟩
      exWorld [("/p", dirtyRepo)] exProj =
      Except.ok (exProj, [("/p", dirtyRepo)], [LogEntry.uncommittedChanges "p"]) :=
  (C1_dirty_isolation exCfg exWorld false ⟨[], false, false⟩
    ⟨[], PendingMode.production, false, false, false, false⟩
    [("/p", dirtyRepo)] exProj dirtyRepo (by decide) (by decide) (by decide) (by decide)).2.2

/-! ## Claim C9 -/

/-- C9 (confirmed): the `rebase` flag of `gitctl update` has no effect: for
every configuration, project list, selection, world and filesystem, the run
with the flag set equals the run with it cleared in every observable
(mutated states, log output, error). -/
theorem C9_rebase_no_effect (cfg : Config) (projects : List Project) (sel : List String)
    (vb r1 r2 : Bool) (w : GitWorld) (fs : FS) :
    gitctl_update cfg projects ⟨sel, vb, r1⟩ w fs =
      gitctl_update cfg projects ⟨sel, vb, r2⟩ w fs := rfl

/-! ## Claim C2 -/

/-- C2 counterexample: the claim asserts the pin invariant regardless of the
repository's prior state; on this dirty checkout `update` completes without
error, reports Dirty, and leaves `HEAD` on a commit different from the
pinned treeish. -/
theorem C2_counterexample :
    is_sha1 pinProj.treeish = true ∧
    (gitctl_update exCfg [pinProj] ⟨[], false, false⟩ pinWorld [("/q", pinDirtyRepo)]).2.2
      = none ∧
    (alookup (gitctl_update exCfg [pinProj] ⟨[], false, false⟩ pinWorld
        [("/q", pinDirtyRepo)]).1 "/q").map RepoState.headSha = some shaB ∧
    shaB ≠ pinProj.treeish := by
  decide

/-- C2 (amended): if `treeish` is a 40-hex pin that names an existing commit,
then after `update` succeeds on the project the checkout's `HEAD` equals the
pin, both for an existing clean checkout (hard reset) and for a missing
checkout (clone and check out the pin); a dirty checkout is skipped with
`HEAD` untouched. -/
theorem C2_pin_invariant (cfg : Config) (w : GitWorld) (vb : Bool) (fs : FS) (proj : Project)
    (hsha : is_sha1 proj.treeish = true)
    (hdag : proj.treeish ∈ shas w.dag) :
    (∀ repo : RepoState, alookup fs proj.path = some repo → ¬ proj.path ∈ w.failFetch →
      repo.dirty = false →
      (gitctl_update_project cfg w vb fs proj).map
          (fun r => (alookup r.1 proj.path).map RepoState.headSha) =
        Except.ok (some proj.treeish)) ∧
    (alookup fs proj.path = none → w.upstreamHead ≠ proj.treeish →
      (∀ rl ∈ cfg.branches, rl.2 ≠ proj.treeish) →
      (gitctl_update_project cfg w vb fs proj).map
          (fun r => (alookup r.1 proj.path).map RepoState.headSha) =
        Except.ok (some proj.treeish)) := by
  constructor
  · intro repo hlk hff hdirty
    rw [update_project_pinned_shape cfg w vb fs proj repo hlk hff hdirty hsha hdag]
    simp only [Except.map, alookup_fsSet_self]
    rfl
  · intro hnone hhead hbr
    have h1 : alookup (cloneRepo w cfg.upstream).localBranches proj.treeish = none := by
      rw [cloneRepo]
      cases h : alookup w.upstreamBranches w.upstreamHead with
      | some tip => simp [alookup, hhead]
      | none => rfl
    have h2 : alookup (cloneTracking cfg.branches
        ((cloneRepo w cfg.upstream).remoteBranches.map Prod.fst)
        ((cloneRepo w cfg.upstream).localBranches.map Prod.fst)
        (cloneRepo w cfg.upstream)).localBranches proj.treeish = none :=
      alookup_cloneTracking_none _ _ _ _ _ h1 hbr
    simp only [gitctl_update_project, hnone, checkout, checkoutCore, h2,
      resolveRef_sha w _ proj.treeish hsha hdag, Except.map, alookup_fsSet_self]
    rfl

/-- Witness for C2: both the reset path and the clone path pin the example
project at the pinned revision. -/
theorem C2_pin_invariant_witness :
    (gitctl_update_project exCfg pinWorld false [("/q", pinCleanRepo)] pinProj).map
        (fun r => (alookup r.1 "/q").map RepoState.headSha) = Except.ok (some shaA) ∧
    (gitctl_update_project exCfg pinWorld false [] pinProj).map
        (fun r => (alookup r.1 "/q").map RepoState.headSha) = Except.ok (some shaA) :=
  ⟨(C2_pin_invariant exCfg pinWorld false [("/q", pinCleanRepo)] pinProj
      (by decide) (by decide)).1 pinCleanRepo (by decide) (by decide) (by decide),
   (C2_pin_invariant exCfg pinWorld false [] pinProj
      (by decide) (by decide)).2 (by decide) (by decide) (by decide)⟩

/-! ## Claim C3 -/

set_option maxRecDepth 1000000 in
/-- Evaluation of the floating-mode loop on the conflict-plus-fast-forward
example: `alpha` conflicts (warning, `ok` cleared), `beta` fast-forwards. -/
theorem float_step1_eval :
    updateBranchStep floatWorld "up" "p" ["up/alpha", "up/beta"] ["alpha", "beta"]
      { st := floatRepo, ok := true, updated := false, logs := [] } ("up/alpha", "alpha") =
    { st := floatRepo, ok := false, updated := false,
      logs := [LogEntry.conflictWarn "p" "alpha"] } := by
  decide

set_option maxRecDepth 1000000 in
/-- Evaluation of the second loop iteration: `beta` fast-forwards to the
upstream tip while the cleared `ok` flag persists. -/
theorem float_step2_eval :
    updateBranchStep floatWorld "up" "p" ["up/alpha", "up/beta"] ["alpha", "beta"]
      { st := floatRepo, ok := false, updated := false,
        logs := [LogEntry.conflictWarn "p" "alpha"] } ("up/beta", "beta") =
    { st := floatRepoBeta2, ok := false, updated := true,
      logs := [LogEntry.conflictWarn "p" "alpha"] } := by
  decide

/-- The whole floating-mode loop on the example. -/
theorem floatingRun_eval :
    floatingRun floatCfg floatWorld floatProj floatRepo =
    { st := floatRepoBeta2, ok := false, updated := true,
      logs := [LogEntry.conflictWarn "p" "alpha"] } := by
  unfold floatingRun
  rw [show fetchedRepo floatWorld floatCfg.upstream floatRepo = floatRepo from by decide]
  show updateFloating floatWorld "up" "p" (floatRepo.remoteBranches.map Prod.fst)
    (floatRepo.localBranches.map Prod.fst) floatCfg.branches floatRepo = _
  rw [show floatRepo.remoteBranches.map Prod.fst = ["up/alpha", "up/beta"] from rfl,
    show floatRepo.localBranches.map Prod.fst = ["alpha", "beta"] from rfl,
    show floatCfg.branches = [("up/alpha", "alpha"), ("up/beta", "beta")] from rfl]
  unfold updateFloating
  rw [List.foldl_cons, float_step1_eval, List.foldl_cons, float_step2_eval, List.foldl_nil]

/-- C3 counterexample: branch `beta` is fast-forwarded and the only failure
is a non-fast-forward Conflict on `alpha` (no Fatal), so the claim demands an
overall "Updated" verdict; the code reports nothing beyond the conflict
warning, because the conflict cleared the `ok` flag. -/
theorem C3_counterexample :
    gitctl_update_project floatCfg floatWorld true [("/p", floatRepo)] floatProj =
      Except.ok ([("/p", floatRepoFinal)], [LogEntry.conflictWarn "p" "alpha"]) ∧
    alookup floatRepoFinal.localBranches "beta" = some "b2" ∧
    alookup floatRepo.localBranches "beta" = some "b1" ∧
    ¬ LogEntry.updated "p" ∈ [LogEntry.conflictWarn "p" "alpha"] := by
  refine ⟨?_, by decide, by decide, by decide⟩
  rw [update_project_floating_shape floatCfg floatWorld true [("/p", floatRepo)] floatProj
    floatRepo "alpha" (by decide) (by decide) (by decide) (by decide) (by decide) (by decide),
    floatingRun_eval]
  decide

/-- C3 (amended): in floating mode any per-branch pull failure — a
non-fast-forward Conflict just as much as a Fatal error — clears the `ok`
flag and suppresses the overall Updated/UpToDate verdict entirely;
"Updated" is reported exactly when at least one branch was fast-forwarded
and no failure of any kind occurred on any mapped branch. -/
theorem C3_verdict (cfg : Config) (w : GitWorld) (vb : Bool) (fs : FS)
    (proj : Project) (repo : RepoState) (br : String)
    (hlk : alookup fs proj.path = some repo)
    (hff : ¬ proj.path ∈ w.failFetch)
    (hdirty : repo.dirty = false)
    (hsha : is_sha1 proj.treeish = false)
    (hact : repo.activeBranch = some br)
    (hbr : (alookup repo.localBranches br).isSome = true) :
    ∃ fs' logs, gitctl_update_project cfg w vb fs proj = Except.ok (fs', logs) ∧
      logs = (floatingRun cfg w proj repo).logs ++
        floatReport vb proj.name (floatingRun cfg w proj repo) ∧
      ((floatingRun cfg w proj repo).logs ≠ [] →
        ¬ LogEntry.updated proj.name ∈ logs ∧ ¬ LogEntry.okVerbose proj.name ∈ logs) ∧
      ((floatingRun cfg w proj repo).ok = true → (floatingRun cfg w proj repo).updated = true →
        LogEntry.updated proj.name ∈ logs) ∧
      (LogEntry.updated proj.name ∈ logs →
        (floatingRun cfg w proj repo).ok = true ∧
          (floatingRun cfg w proj repo).updated = true) := by
  have hinv : FloatInv proj.name (floatingRun cfg w proj repo) :=
    updateFloating_inv w cfg.upstream proj.name
      ((fetchedRepo w cfg.upstream repo).remoteBranches.map Prod.fst)
      ((fetchedRepo w cfg.upstream repo).localBranches.map Prod.fst)
      cfg.branches (fetchedRepo w cfg.upstream repo)
  refine ⟨_, _, update_project_floating_shape cfg w vb fs proj repo br hlk hff hdirty hsha
    hact hbr, rfl, ?_, ?_⟩
  · intro hne
    have hok : (floatingRun cfg w proj repo).ok = false := hinv.1 hne
    have hrep : floatReport vb proj.name (floatingRun cfg w proj repo) = [] := by
      rw [floatReport, hok]
      simp
    constructor
    · intro hmem
      rw [hrep, List.append_nil] at hmem
      rcases hinv.2 _ hmem with ⟨b, hb⟩ | ⟨s, hs⟩
      · exact LogEntry.noConfusion hb
      · exact LogEntry.noConfusion hs
    · intro hmem
      rw [hrep, List.append_nil] at hmem
      rcases hinv.2 _ hmem with ⟨b, hb⟩ | ⟨s, hs⟩
      · exact LogEntry.noConfusion hb
      · exact LogEntry.noConfusion hs
  refine ⟨?_, ?_⟩
  · intro hok hupd
    rw [floatReport, hok, hupd]
    simp
  · intro hmem
    rcases List.mem_append.mp hmem with h2 | h2
    · rcases hinv.2 _ h2 with ⟨b, hb⟩ | ⟨s, hs⟩
      · exact absurd hb (by intro hc; exact LogEntry.noConfusion hc)
      · exact absurd hs (by intro hc; exact LogEntry.noConfusion hc)
    · rw [floatReport] at h2
      by_cases hok : (floatingRun cfg w proj repo).ok = true
      · rw [if_pos hok] at h2
        by_cases hupd : (floatingRun cfg w proj repo).updated = true
        · exact ⟨hok, hupd⟩
        · rw [if_neg hupd] at h2
          split at h2
          · simp only [List.mem_singleton] at h2
            exact absurd h2 (by intro hc; exact LogEntry.noConfusion hc)
          · simp at h2
      · rw [if_neg hok] at h2
        simp at h2

/-- Witness for C3: in the conflict-plus-fast-forward example the loop logged
the conflict and the final output carries no Updated verdict. -/
theorem C3_verdict_witness :
    LogEntry.conflictWarn "p" "alpha" ∈ (floatingRun floatCfg floatWorld floatProj floatRepo).logs ∧
    ¬ LogEntry.updated "p" ∈ (floatingRun floatCfg floatWorld floatProj floatRepo).logs ++
        floatReport true floatProj.name (floatingRun floatCfg floatWorld floatProj floatRepo) := by
  obtain ⟨fs', logs, heq, hlogs, hsup, hupd, hconv⟩ := C3_verdict floatCfg floatWorld true
    [("/p", floatRepo)] floatProj floatRepo "alpha" (by decide) (by decide) (by decide)
    (by decide) (by decide) (by decide)
  constructor
  · rw [floatingRun_eval]
    decide
  · rw [← hlogs]
    exact (hsup (by rw [floatingRun_eval]; decide)).1

/-! ## Claim C4 -/

/-- C4 counterexample: the first project's fetch fails; the run aborts with
the raised error, reports no outcome for either project and leaves the
filesystem untouched — the second project, which alone would have reported
OK, is never processed. -/
theorem C4_counterexample :
    (gitctl_update exCfg [failP1, failP2] ⟨[], true, false⟩ failWorld failFS).2.2
      = some (GitError.fetchFailed "/p1") ∧
    (gitctl_update exCfg [failP1, failP2] ⟨[], true, false⟩ failWorld failFS).2.1 = [] ∧
    (gitctl_update exCfg [failP1, failP2] ⟨[], true, false⟩ failWorld failFS).1 = failFS ∧
    (gitctl_update exCfg [failP2] ⟨[], true, false⟩ failWorld failFS).2.1
      = [LogEntry.okVerbose "p2"] := by
  decide

/-- C4 (amended): only pull failures inside the floating-branch loop are
converted to per-project outcome reports — that loop is total and the
project still returns normally; any other failing git operation, such as a
failing fetch, raises and aborts the whole run immediately: no outcome is
reported and the remaining projects are not processed. -/
theorem C4_failure_propagation (cfg : Config) (w : GitWorld) (vb : Bool) (fs : FS)
    (p : Project) (rest : List Project) (repo : RepoState)
    (hlk : alookup fs p.path = some repo)
    (hfail : p.path ∈ w.failFetch) :
    (∀ logs0 : List LogEntry, updateLoop cfg w vb (p :: rest) fs logs0 =
      (fs, logs0, some (GitError.fetchFailed p.path))) ∧
    (∀ (projects : List Project) (sel : List String) (rb : Bool),
      filter_projects projects sel = p :: rest →
      gitctl_update cfg projects ⟨sel, vb, rb⟩ w fs =
        (fs, [], some (GitError.fetchFailed p.path))) ∧
    (∀ (proj : Project) (repo2 : RepoState) (br : String),
      alookup fs proj.path = some repo2 → ¬ proj.path ∈ w.failFetch →
      repo2.dirty = false → is_sha1 proj.treeish = false →
      repo2.activeBranch = some br → (alookup repo2.localBranches br).isSome = true →
      ∃ fs' l, gitctl_update_project cfg w vb fs proj = Except.ok (fs', l)) := by
  have hp : gitctl_update_project cfg w vb fs p =
      Except.error (GitError.fetchFailed p.path) := by
    simp only [gitctl_update_project, hlk, fetch, if_pos hfail]
  have hloop : ∀ logs0 : List LogEntry, updateLoop cfg w vb (p :: rest) fs logs0 =
      (fs, logs0, some (GitError.fetchFailed p.path)) := by
    intro logs0
    rw [updateLoop, hp]
  refine ⟨hloop, fun projects sel rb hfil => ?_, fun proj repo2 br h1 h2 h3 h4 h5 h6 =>
    ⟨_, _, update_project_floating_shape cfg w vb fs proj repo2 br h1 h2 h3 h4 h5 h6⟩⟩
  show updateLoop cfg w vb (filter_projects projects sel) fs [] =
    (fs, [], some (GitError.fetchFailed p.path))
  rw [hfil]
  exact hloop []

/-- Witness for C4: the example run with the failing first fetch aborts
immediately. -/
theorem C4_failure_propagation_witness :
    gitctl_update exCfg [failP1, failP2] ⟨[], true, false⟩ failWorld failFS
      = (failFS, [], some (GitError.fetchFailed "/p1")) :=
  (C4_failure_propagation exCfg failWorld true failFS failP1 [failP2] cleanRepo
    (by decide) (by decide)).2.1 [failP1, failP2] [] false (by decide)

/-! ## Claim C7 -/

theorem updateBranchStep_id (w : GitWorld) (u n : String) (rbn lbn : List String)
    (rl : String × String) (acc : FloatAcc)
    (h : revParseD w acc.st rl.1 = revParseD w acc.st rl.2) :
    updateBranchStep w u n rbn lbn acc rl = acc := by
  rw [updateBranchStep]
  by_cases hm : rl.1 ∈ rbn ∧ rl.2 ∈ lbn
  · rw [if_pos hm, if_pos h]
  · rw [if_neg hm]

theorem updateFloating_id (w : GitWorld) (u n : String) (rbn lbn : List String)
    (branches : List (String × String)) (st : RepoState)
    (h : ∀ rl ∈ branches, revParseD w st rl.1 = revParseD w st rl.2) :
    updateFloating w u n rbn lbn branches st =
      { st := st, ok := true, updated := false, logs := [] } := by
  rw [updateFloating]
  have hgen : ∀ (bs : List (String × String)) (acc : FloatAcc), acc.st = st →
      (∀ rl ∈ bs, revParseD w st rl.1 = revParseD w st rl.2) →
      bs.foldl (updateBranchStep w u n rbn lbn) acc = acc := by
    intro bs
    induction bs with
    | nil => intro acc _ _; rfl
    | cons rl rest ih =>
      intro acc hst hb
      rw [List.foldl_cons, updateBranchStep_id w u n rbn lbn rl acc
        (by rw [hst]; exact hb rl (by simp))]
      exact ih acc hst (fun r hr => hb r (by simp [hr]))
  exact hgen branches _ rfl h

theorem checkoutD_self (w : GitWorld) (st : RepoState) (br : String)
    (hact : st.activeBranch = some br)
    (hbr : alookup st.localBranches br = some st.headSha) :
    checkoutD w st br = st := by
  obtain ⟨d, lb, rb, hs, ab⟩ := st
  simp only at hact hbr
  simp [checkoutD, checkoutCore, hbr, hact]

theorem fetchedRepo_eq_self (w : GitWorld) (u : String) (st : RepoState)
    (h : fetchRemotes w u st.remoteBranches = st.remoteBranches) :
    fetchedRepo w u st = st := by
  rw [fetchedRepo, h]

theorem resetHardState_self (st : RepoState) (s : String)
    (hhead : st.headSha = s) (hdirty : st.dirty = false)
    (hactl : ∀ b, st.activeBranch = some b → alookup st.localBranches b = some s) :
    resetHardState st s = st := by
  obtain ⟨d, lb, rb, hs, ab⟩ := st
  simp only at hhead hdirty
  subst hhead
  subst hdirty
  rw [resetHardState]
  cases hab : ab with
  | none => rfl
  | some b =>
    have h := hactl b (by rw [hab])
    simp only at h
    simp [upsert_of_lookup lb b hs h]

/-- C7 (confirmed): on an already-synchronized clean project — the fetch
refreshes nothing and either the pin is already checked out (pinned mode) or
every mapped branch already equals its remote counterpart (floating mode) —
`update` reports OK (UpToDate) and leaves the filesystem unchanged, so a
second run does exactly the same: UpToDate again with no mutation. -/
theorem C7_update_idempotent (cfg : Config) (w : GitWorld) (vb : Bool) (fs : FS)
    (proj : Project) (repo : RepoState)
    (hlk : alookup fs proj.path = some repo)
    (hff : ¬ proj.path ∈ w.failFetch)
    (hdirty : repo.dirty = false)
    (hsync : fetchRemotes w cfg.upstream repo.remoteBranches = repo.remoteBranches)
    (hmode :
      (is_sha1 proj.treeish = true ∧ proj.treeish ∈ shas w.dag ∧
        repo.headSha = proj.treeish ∧
        (∀ b, repo.activeBranch = some b →
          alookup repo.localBranches b = some proj.treeish)) ∨
      (is_sha1 proj.treeish = false ∧
        (∃ br, repo.activeBranch = some br ∧
          alookup repo.localBranches br = some repo.headSha) ∧
        (∀ rl ∈ cfg.branches, revParseD w repo rl.1 = revParseD w repo rl.2))) :
    gitctl_update_project cfg w vb fs proj =
      Except.ok (fs, if vb then [LogEntry.okVerbose proj.name] else []) ∧
    (∀ fs2 logs2, gitctl_update_project cfg w vb fs proj = Except.ok (fs2, logs2) →
      gitctl_update_project cfg w vb fs2 proj = Except.ok (fs2, logs2)) := by
  have hfe : fetchedRepo w cfg.upstream repo = repo :=
    fetchedRepo_eq_self w cfg.upstream repo hsync
  have hmain : gitctl_update_project cfg w vb fs proj =
      Except.ok (fs, if vb then [LogEntry.okVerbose proj.name] else []) := by
    rcases hmode with ⟨hsha, hdag, hhead, hactl⟩ | ⟨hsha, ⟨br, hact, hbr⟩, hsame⟩
    · rw [update_project_pinned_shape cfg w vb fs proj repo hlk hff hdirty hsha hdag, hfe,
        resetHardState_self repo proj.treeish hhead hdirty hactl,
        fsSet_self fs proj.path repo hlk, if_pos hhead]
    · rw [update_project_floating_shape cfg w vb fs proj repo br hlk hff hdirty hsha hact
        (by rw [hbr]; rfl)]
      have hrun : floatingRun cfg w proj repo =
          { st := repo, ok := true, updated := false, logs := [] } := by
        unfold floatingRun
        dsimp only
        rw [hfe, updateFloating_id w cfg.upstream proj.name _ _ cfg.branches repo hsame]
      rw [hrun]
      rw [checkoutD_self w repo br hact hbr, fsSet_self fs proj.path repo hlk]
      rw [floatReport]
      simp
  refine ⟨hmain, fun fs2 logs2 h2 => ?_⟩
  rw [hmain] at h2
  simp only [Except.ok.injEq, Prod.mk.injEq] at h2
  obtain ⟨h4, h5⟩ := h2
  rw [← h4, ← h5]
  exact hmain

/-- Witness for C7: the synchronized clean example project reports OK with
the filesystem returned unchanged. -/
theorem C7_update_idempotent_witness :
    gitctl_update_project exCfg exWorld true [("/p", cleanRepo)] exProj =
      Except.ok ([("/p", cleanRepo)], [LogEntry.okVerbose "p"]) := by
  have h := C7_update_idempotent exCfg exWorld true [("/p", cleanRepo)] exProj cleanRepo
    (by decide) (by decide) (by decide) (by decide)
    (Or.inr ⟨by decide, ⟨"devel", by decide, by decide⟩, by decide⟩)
  exact h.1

/-! ## Claim C5 -/

/-- C5 (confirmed): at the comparison step of pending, equal endpoints give
the UpToDate outcome (the OK line, printed when verbose outside regenerate
mode) and no ahead-count; differing endpoints outside regenerate mode
report a count equal to the number of commits reachable from the target
endpoint but not from the base endpoint. -/
theorem C5_promotion_correct (w : GitWorld) (cfg : Config) (args : PendingArgs)
    (proj : Project) (fromRev toRev : String) :
    (fromRev = toRev →
      pendingCompare w cfg args proj fromRev toRev =
        (proj, if args.verbose ∧ ¬ args.show_config then [LogEntry.okVerbose proj.name]
          else [])) ∧
    (fromRev ≠ toRev → ¬ (args.show_config ∧ args.mode = PendingMode.production) →
      ∃ rest, (pendingCompare w cfg args proj fromRev toRev).2 =
        (match args.mode with
          | PendingMode.production => LogEntry.aheadOfPinned proj.name cfg.productionBranch
              ((ancestors w.dag toRev).filter (fun s => ¬ s ∈ ancestors w.dag fromRev)).length
              toRev
          | PendingMode.staging => LogEntry.ahead proj.name cfg.stagingBranch
              ((ancestors w.dag toRev).filter (fun s => ¬ s ∈ ancestors w.dag fromRev)).length
              cfg.productionBranch
          | PendingMode.dev => LogEntry.ahead proj.name cfg.developmentBranch
              ((ancestors w.dag toRev).filter (fun s => ¬ s ∈ ancestors w.dag fromRev)).length
              cfg.stagingBranch) :: rest) := by
  constructor
  · intro he
    rw [pendingCompare, if_neg (not_not_intro he)]
  · intro hne hnsc
    rw [pendingCompare, if_pos hne, if_neg hnsc]
    dsimp only
    cases hm : args.mode with
    | production =>
      by_cases hd : args.diff = true
      · exact ⟨[LogEntry.diffLog (gitLogStatTwoRevs w.dag fromRev toRev)],
          by rw [if_pos hd]; rfl⟩
      · exact ⟨[], by rw [if_neg hd]; rfl⟩
    | staging =>
      by_cases hd : args.diff = true
      · exact ⟨[LogEntry.diffLog (gitLogStatTwoRevs w.dag fromRev toRev)],
          by rw [if_pos hd]; rfl⟩
      · exact ⟨[], by rw [if_neg hd]; rfl⟩
    | dev =>
      by_cases hd : args.diff = true
      · exact ⟨[LogEntry.diffLog (gitLogStatTwoRevs w.dag fromRev toRev)],
          by rw [if_pos hd]; rfl⟩
      · exact ⟨[], by rw [if_neg hd]; rfl⟩

/-- Witness for C5: in the two-commit pinned example, equal endpoints report
OK and the pair one commit apart reports exactly one commit ahead. -/
theorem C5_promotion_correct_witness :
    pendingCompare pinWorld exCfg ⟨[], PendingMode.production, false, false, false, true⟩
        pinProj shaA shaA = (pinProj, [LogEntry.okVerbose pinProj.name]) ∧
    (pendingCompare pinWorld exCfg ⟨[], PendingMode.production, false, false, false, true⟩
        pinProj shaA shaB).2.head? = some (LogEntry.aheadOfPinned pinProj.name
          exCfg.productionBranch 1 shaB) := by
  constructor
  · have h := (C5_promotion_correct pinWorld exCfg
      ⟨[], PendingMode.production, false, false, false, true⟩ pinProj shaA shaA).1 rfl
    rw [h]
    rfl
  · obtain ⟨rest, h⟩ := (C5_promotion_correct pinWorld exCfg
      ⟨[], PendingMode.production, false, false, false, true⟩ pinProj shaA shaB).2
      (by decide) (by decide)
    rw [h]
    rw [show ((ancestors pinWorld.dag shaB).filter
      (fun s => ¬ s ∈ ancestors pinWorld.dag shaA)).length = 1 from by decide]
    rfl

/-! ## Claim C6 -/

/-- C6 (confirmed): in regenerate mode for the production transition, a
project reaching the comparison with differing endpoints has its treeish
mutated to the resolved target endpoint with no per-project report, equal
endpoints leave the treeish unchanged (and print nothing, since regenerate
mode also suppresses the OK line), and after the loop the possibly-mutated
project list is serialized as the final output entry. -/
theorem C6_regenerate (cfg : Config) (args : PendingArgs) (w : GitWorld)
    (projects : List Project) (fs : FS) (proj : Project) (fromRev toRev : String)
    (hsc : args.show_config = true) (hm : args.mode = PendingMode.production) :
    (fromRev ≠ toRev →
      pendingCompare w cfg args proj fromRev toRev = ({ proj with treeish := toRev }, [])) ∧
    (fromRev = toRev →
      pendingCompare w cfg args proj fromRev toRev = (proj, [])) ∧
    (∀ ps fs' logs, gitctl_pending cfg projects args w fs = (ps, fs', logs, none) →
      ∃ l, logs = l ++ [LogEntry.externalsOutput ps]) := by
  refine ⟨fun hne => ?_, fun he => ?_, fun ps fs' logs h => ?_⟩
  · rw [pendingCompare, if_pos hne, if_pos ⟨hsc, hm⟩]
  · rw [pendingCompare, if_neg (not_not_intro he), hsc]
    simp
  · rw [gitctl_pending] at h
    rcases hloop : pendingLoop cfg args w projects fs [] [] with ⟨ps0, fs0, logs0, err0⟩
    rw [hloop] at h
    cases err0 with
    | some e => simp at h
    | none =>
      dsimp only at h
      rw [if_pos ⟨hsc, hm⟩] at h
      simp only [Prod.mk.injEq] at h
      obtain ⟨h1, h2, h3, _⟩ := h
      exact ⟨logs0, by rw [← h1, ← h3]⟩

/-- Witness for C6: with differing endpoints, the example project's treeish
is rewritten to the target endpoint and nothing is reported. -/
theorem C6_regenerate_witness :
    pendingCompare pinWorld exCfg ⟨[], PendingMode.production, true, false, false, false⟩
        pinProj shaA shaB = ({ pinProj with treeish := shaB }, []) :=
  (C6_regenerate exCfg ⟨[], PendingMode.production, true, false, false, false⟩ pinWorld
    [] [] pinProj shaA shaB rfl rfl).1 (by decide)

/-! ## Claim C8 -/

theorem pending_project_production_shape (cfg : Config) (args : PendingArgs) (w : GitWorld)
    (fs : FS) (proj : Project) (repo : RepoState)
    (hlk : alookup fs proj.path = some repo)
    (hdev : cfg.developmentBranch ∈ repo.localBranches.map Prod.fst)
    (hdirty : repo.dirty = false)
    (hmode : args.mode = PendingMode.production)
    (hnf : args.no_fetch = false)
    (hff : ¬ proj.path ∈ w.failFetch) :
    gitctl_pending_project cfg args w fs proj =
      match pendingEndpoints cfg w args.mode (repo.localBranches.map Prod.fst)
          (fetchedRepo w cfg.upstream repo) proj with
      | Except.error e => Except.error e
      | Except.ok (Sum.inl skipLogs) =>
        Except.ok (proj, fsSet fs proj.path (fetchedRepo w cfg.upstream repo), skipLogs)
      | Except.ok (Sum.inr (fromRev, toRev)) =>
        Except.ok ((pendingCompare w cfg args proj fromRev toRev).1,
          fsSet fs proj.path (fetchedRepo w cfg.upstream repo),
          (pendingCompare w cfg args proj fromRev toRev).2) := by
  simp only [gitctl_pending_project, hlk]
  rw [if_neg (not_not_intro hdev)]
  rw [hdirty]
  simp only [Bool.false_eq_true, if_false, hnf, fetch, if_neg hff]
  rw [hmode]
  simp only [ne_eq, not_true_eq_false, if_false, Bool.false_eq_true]
  cases hep : pendingEndpoints cfg w PendingMode.production (repo.localBranches.map Prod.fst)
      (fetchedRepo w cfg.upstream repo) proj with
  | error e => simp
  | ok v =>
    cases v with
    | inl skipLogs => simp
    | inr ft =>
      obtain ⟨fromRev, toRev⟩ := ft
      simp

/-- C8 (confirmed): in production mode pending resolves the `from` endpoint
as the commit of `project.treeish`, which must already be a pinned SHA1 —
otherwise the project is warned about and skipped — and the `to` endpoint as
the freshly fetched tip of the production branch (the `upstream/production`
remote-tracking ref). -/
theorem C8_production_endpoints (cfg : Config) (args : PendingArgs) (w : GitWorld)
    (fs : FS) (proj : Project) (repo : RepoState) (tipP : String)
    (hlk : alookup fs proj.path = some repo)
    (hdev : cfg.developmentBranch ∈ repo.localBranches.map Prod.fst)
    (hdirty : repo.dirty = false)
    (hmode : args.mode = PendingMode.production)
    (hnf : args.no_fetch = false)
    (hff : ¬ proj.path ∈ w.failFetch)
    (hprod : cfg.productionBranch ∈ repo.localBranches.map Prod.fst) :
    (is_sha1 proj.treeish = false →
      gitctl_pending_project cfg args w fs proj =
        Except.ok (proj, fsSet fs proj.path (fetchedRepo w cfg.upstream repo),
          [LogEntry.treeishNotSha1 proj.name proj.treeish])) ∧
    (is_sha1 proj.treeish = true → proj.treeish ∈ shas w.dag →
      (w.upstreamBranches.map Prod.fst).Nodup →
      alookup w.upstreamBranches cfg.productionBranch = some tipP →
      alookup repo.localBranches (cfg.upstream ++ "/" ++ cfg.productionBranch) = none →
      gitctl_pending_project cfg args w fs proj =
        Except.ok ((pendingCompare w cfg args proj proj.treeish tipP).1,
          fsSet fs proj.path (fetchedRepo w cfg.upstream repo),
          (pendingCompare w cfg args proj proj.treeish tipP).2)) := by
  have hshape := pending_project_production_shape cfg args w fs proj repo hlk hdev hdirty
    hmode hnf hff
  rw [hmode] at hshape
  constructor
  · intro hsha
    rw [hshape, pendingEndpoints]
    rw [if_neg (not_not_intro hprod), hsha]
    simp
  · intro hsha hdag hnd hup hnoshadow
    have hfrom : rev_parse w (fetchedRepo w cfg.upstream repo) proj.treeish =
        Except.ok proj.treeish := by
      rw [rev_parse, resolveRef_sha w _ proj.treeish hsha hdag]
    have hto : rev_parse w (fetchedRepo w cfg.upstream repo)
        (cfg.upstream ++ "/" ++ cfg.productionBranch) = Except.ok tipP := by
      rw [rev_parse, resolveRef]
      rw [if_neg (fun hc => by
        have hcs := hc.1
        rw [slash_key_not_sha1] at hcs
        exact Bool.false_ne_true hcs)]
      rw [if_neg (slash_key_ne_head cfg.upstream cfg.productionBranch)]
      rw [fetchedRepo_local, hnoshadow]
      rw [show (fetchedRepo w cfg.upstream repo).remoteBranches =
        fetchRemotes w cfg.upstream repo.remoteBranches from rfl]
      rw [fetchRemotes_lookup w cfg.upstream cfg.productionBranch tipP _ hnd hup]
    rw [hshape, pendingEndpoints]
    rw [if_neg (not_not_intro hprod), hsha]
    simp only [Bool.true_eq_false, if_false, if_true, hfrom, hto]
    simp

/-- Witness for C8: on the example checkout the production comparison runs
between the pinned commit and the fetched production tip. -/
theorem C8_production_endpoints_witness :
    gitctl_pending_project exCfg ⟨[], PendingMode.production, false, false, false, true⟩
      pinWorld [("/q", pendRepo)] pinProj =
      Except.ok ((pendingCompare pinWorld exCfg
          ⟨[], PendingMode.production, false, false, false, true⟩ pinProj shaA shaB).1,
        fsSet [("/q", pendRepo)] "/q" (fetchedRepo pinWorld "up" pendRepo),
        (pendingCompare pinWorld exCfg
          ⟨[], PendingMode.production, false, false, false, true⟩ pinProj shaA shaB).2) :=
  (C8_production_endpoints exCfg ⟨[], PendingMode.production, false, false, false, true⟩
    pinWorld [("/q", pendRepo)] pinProj pendRepo shaB (by decide) (by decide) (by decide)
    rfl rfl (by decide) (by decide)).2 (by decide) (by decide) (by decide) (by decide)
    (by decide)

/-! ## Claim C10 -/

theorem filter_projects_name_mem (projects : List Project) (sel : List String) (p : Project)
    (hne : sel ≠ []) (h : p ∈ filter_projects projects sel) : p.name ∈ sel := by
  rw [filter_projects] at h
  rw [if_neg (fun hc => hne (List.isEmpty_iff.mp hc))] at h
  exact of_decide_eq_true (List.mem_filter.mp h).2

theorem update_project_log_names (cfg : Config) (w : GitWorld) (vb : Bool) (fs : FS)
    (proj : Project) (fs' : FS) (l : List LogEntry)
    (h : gitctl_update_project cfg w vb fs proj = Except.ok (fs', l)) :
    ∀ e ∈ l, entryName e = some proj.name := by
  rw [gitctl_update_project] at h
  split at h
  · -- existing checkout
    rename_i repo0 heq
    split at h
    · exact absurd h (by simp)
    · rename_i repo1 hfetch
      split at h
      · -- dirty
        simp only [Except.ok.injEq, Prod.mk.injEq] at h
        obtain ⟨-, hl⟩ := h
        intro e he
        rw [← hl] at he
        simp only [List.mem_singleton] at he
        rw [he]
        rfl
      · split at h
        · -- pinned
          split at h
          · exact absurd h (by simp)
          · simp only [Except.ok.injEq, Prod.mk.injEq] at h
            obtain ⟨-, hl⟩ := h
            intro e he
            rw [← hl] at he
            split at he
            · split at he
              · simp only [List.mem_singleton] at he
                rw [he]
                rfl
              · simp at he
            · simp only [List.mem_singleton] at he
              rw [he]
              rfl
        · -- floating
          split at h
          · exact absurd h (by simp)
          · rename_i treeish hact
            dsimp only at h
            split at h
            · exact absurd h (by simp)
            · simp only [Except.ok.injEq, Prod.mk.injEq] at h
              obtain ⟨-, hl⟩ := h
              intro e he
              rw [← hl] at he
              rcases List.mem_append.mp he with h2 | h2
              · have hinv := updateFloating_inv w cfg.upstream proj.name
                  (repo1.remoteBranches.map Prod.fst) (repo1.localBranches.map Prod.fst)
                  cfg.branches repo1
                rcases hinv.2 _ h2 with ⟨b, hb⟩ | ⟨s, hs⟩
                · rw [hb]; rfl
                · rw [hs]; rfl
              · split at h2
                · split at h2
                  · simp only [List.mem_singleton] at h2
                    rw [h2]
                    rfl
                  · split at h2
                    · simp only [List.mem_singleton] at h2
                      rw [h2]
                      rfl
                    · simp at h2
                · simp at h2
  · -- clone
    dsimp only at h
    split at h
    · exact absurd h (by simp)
    · simp only [Except.ok.injEq, Prod.mk.injEq] at h
      obtain ⟨-, hl⟩ := h
      intro e he
      rw [← hl] at he
      simp only [List.mem_singleton] at he
      rw [he]
      rfl

theorem statusBranchLoop_log_names (w : GitWorld) (n : String) (st : RepoState)
    (rbn : List String) :
    ∀ (bs : List (String × String)) (u : Bool) (logs : List LogEntry) (res : Bool × List LogEntry),
    (∀ e ∈ logs, entryName e = some n) →
    statusBranchLoop w n st rbn bs u logs = Except.ok res →
    ∀ e ∈ res.2, entryName e = some n := by
  intro bs
  induction bs with
  | nil =>
    intro u logs res hl h
    rw [statusBranchLoop] at h
    simp only [Except.ok.injEq] at h
    rw [← h]
    exact hl
  | cons rl rest ih =>
    intro u logs res hl h
    rw [statusBranchLoop] at h
    split at h
    · split at h
      · exact absurd h (by simp)
      · split at h
        · refine ih _ _ _ ?_ h
          intro e he
          rcases List.mem_append.mp he with h2 | h2
          · exact hl e h2
          · simp only [List.mem_singleton] at h2
            rw [h2]
            rfl
        · exact ih _ _ _ hl h
    · exact ih _ _ _ hl h

theorem status_project_log_names (cfg : Config) (sargs : StatusArgs) (w : GitWorld) (fs : FS)
    (proj : Project) (fs' : FS) (l : List LogEntry)
    (h : gitctl_status_project cfg sargs w fs proj = Except.ok (fs', l)) :
    ∀ e ∈ l, entryName e = some proj.name := by
  rw [gitctl_status_project] at h
  split at h
  · exact absurd h (by simp)
  · split at h
    · exact absurd h (by simp)
    · rename_i repo1 hfetch
      split at h
      · simp only [Except.ok.injEq, Prod.mk.injEq] at h
        obtain ⟨-, hl⟩ := h
        intro e he
        rw [← hl] at he
        simp only [List.mem_singleton] at he
        rw [he]
        rfl
      · dsimp only at h
        split at h
        · exact absurd h (by simp)
        · rename_i uptodate logs2 hloop
          simp only [Except.ok.injEq, Prod.mk.injEq] at h
          obtain ⟨-, hl⟩ := h
          intro e he
          rw [← hl] at he
          rcases List.mem_append.mp he with h2 | h2
          · exact statusBranchLoop_log_names w proj.name repo1 _ cfg.branches true []
              (uptodate, logs2) (fun e he => absurd he (List.not_mem_nil e)) hloop e h2
          · split at h2
            · simp only [List.mem_singleton] at h2
              rw [h2]
              rfl
            · simp at h2

theorem fetch_project_log_names (cfg : Config) (w : GitWorld) (fs : FS)
    (proj : Project) (fs' : FS) (l : List LogEntry)
    (h : gitctl_fetch_project cfg w fs proj = Except.ok (fs', l)) :
    ∀ e ∈ l, entryName e = some proj.name := by
  rw [gitctl_fetch_project] at h
  split at h
  · exact absurd h (by simp)
  · split at h
    · exact absurd h (by simp)
    · simp only [Except.ok.injEq, Prod.mk.injEq] at h
      obtain ⟨-, hl⟩ := h
      intro e he
      rw [← hl] at he
      simp only [List.mem_singleton] at he
      rw [he]
      rfl

theorem updateLoop_log_names (cfg : Config) (w : GitWorld) (vb : Bool) :
    ∀ (ps : List Project) (fs : FS) (logs0 : List LogEntry) (e : LogEntry),
    e ∈ (updateLoop cfg w vb ps fs logs0).2.1 →
    e ∈ logs0 ∨ ∃ p ∈ ps, entryName e = some p.name := by
  intro ps
  induction ps with
  | nil => intro fs logs0 e he; exact Or.inl he
  | cons p rest ih =>
    intro fs logs0 e he
    rw [updateLoop] at he
    cases hp : gitctl_update_project cfg w vb fs p with
    | error err =>
      rw [hp] at he
      exact Or.inl he
    | ok r =>
      obtain ⟨fs2, l⟩ := r
      rw [hp] at he
      rcases ih fs2 (logs0 ++ l) e he with h1 | ⟨q, hq, hn⟩
      · rcases List.mem_append.mp h1 with h2 | h2
        · exact Or.inl h2
        · exact Or.inr ⟨p, by simp, update_project_log_names cfg w vb fs p fs2 l hp e h2⟩
      · exact Or.inr ⟨q, by simp [hq], hn⟩

theorem statusLoop_log_names (cfg : Config) (sargs : StatusArgs) (w : GitWorld) :
    ∀ (ps : List Project) (fs : FS) (logs0 : List LogEntry) (e : LogEntry),
    e ∈ (statusLoop cfg sargs w ps fs logs0).2.1 →
    e ∈ logs0 ∨ ∃ p ∈ ps, entryName e = some p.name := by
  intro ps
  induction ps with
  | nil => intro fs logs0 e he; exact Or.inl he
  | cons p rest ih =>
    intro fs logs0 e he
    rw [statusLoop] at he
    cases hp : gitctl_status_project cfg sargs w fs p with
    | error err =>
      rw [hp] at he
      exact Or.inl he
    | ok r =>
      obtain ⟨fs2, l⟩ := r
      rw [hp] at he
      rcases ih fs2 (logs0 ++ l) e he with h1 | ⟨q, hq, hn⟩
      · rcases List.mem_append.mp h1 with h2 | h2
        · exact Or.inl h2
        · exact Or.inr ⟨p, by simp, status_project_log_names cfg sargs w fs p fs2 l hp e h2⟩
      · exact Or.inr ⟨q, by simp [hq], hn⟩

theorem fetchLoop_log_names (cfg : Config) (w : GitWorld) :
    ∀ (ps : List Project) (fs : FS) (logs0 : List LogEntry) (e : LogEntry),
    e ∈ (fetchLoop cfg w ps fs logs0).2.1 →
    e ∈ logs0 ∨ ∃ p ∈ ps, entryName e = some p.name := by
  intro ps
  induction ps with
  | nil => intro fs logs0 e he; exact Or.inl he
  | cons p rest ih =>
    intro fs logs0 e he
    rw [fetchLoop] at he
    cases hp : gitctl_fetch_project cfg w fs p with
    | error err =>
      rw [hp] at he
      exact Or.inl he
    | ok r =>
      obtain ⟨fs2, l⟩ := r
      rw [hp] at he
      rcases ih fs2 (logs0 ++ l) e he with h1 | ⟨q, hq, hn⟩
      · rcases List.mem_append.mp h1 with h2 | h2
        · exact Or.inl h2
        · exact Or.inr ⟨p, by simp, fetch_project_log_names cfg w fs p fs2 l hp e h2⟩
      · exact Or.inr ⟨q, by simp [hq], hn⟩

theorem pendingLoop_length (cfg : Config) (args : PendingArgs) (w : GitWorld) :
    ∀ (rest : List Project) (fs : FS) (ps : List Project) (logs : List LogEntry)
    (ps' : List Project) (fs' : FS) (logs' : List LogEntry),
    pendingLoop cfg args w rest fs ps logs = (ps', fs', logs', none) →
    ps'.length = ps.length + rest.length := by
  intro rest
  induction rest with
  | nil =>
    intro fs ps logs ps' fs' logs' h
    rw [pendingLoop] at h
    simp only [Prod.mk.injEq] at h
    obtain ⟨h1, -, -, -⟩ := h
    simp [← h1]
  | cons p t ih =>
    intro fs ps logs ps' fs' logs' h
    rw [pendingLoop] at h
    cases hp : gitctl_pending_project cfg args w fs p with
    | error e =>
      rw [hp] at h
      simp at h
    | ok r =>
      obtain ⟨p', fs2, l⟩ := r
      rw [hp] at h
      have hlen := ih fs2 (ps ++ [p']) (logs ++ l) ps' fs' logs' h
      simp only [List.length_append, List.length_singleton, List.length_cons,
        List.length_nil] at hlen ⊢
      omega

theorem pendingLoop_ignores_selection (cfg : Config) (w : GitWorld)
    (sel1 sel2 : List String) (m : PendingMode) (sc nf d v : Bool) :
    ∀ (rest : List Project) (fs : FS) (ps : List Project) (logs : List LogEntry),
    pendingLoop cfg ⟨sel1, m, sc, nf, d, v⟩ w rest fs ps logs =
      pendingLoop cfg ⟨sel2, m, sc, nf, d, v⟩ w rest fs ps logs := by
  intro rest
  induction rest with
  | nil => intro fs ps logs; rfl
  | cons p t ih =>
    intro fs ps logs
    rw [pendingLoop, pendingLoop]
    have hp : gitctl_pending_project cfg ⟨sel1, m, sc, nf, d, v⟩ w fs p =
        gitctl_pending_project cfg ⟨sel2, m, sc, nf, d, v⟩ w fs p := rfl
    rw [hp]
    cases gitctl_pending_project cfg ⟨sel2, m, sc, nf, d, v⟩ w fs p with
    | error e => rfl
    | ok r =>
      obtain ⟨p', fs2, l⟩ := r
      exact ih fs2 (ps ++ [p']) (logs ++ l)

theorem gitctl_pending_ignores_selection (cfg : Config) (projects : List Project)
    (w : GitWorld) (fs : FS) (sel1 sel2 : List String) (m : PendingMode) (sc nf d v : Bool) :
    gitctl_pending cfg projects ⟨sel1, m, sc, nf, d, v⟩ w fs =
      gitctl_pending cfg projects ⟨sel2, m, sc, nf, d, v⟩ w fs := by
  rw [gitctl_pending, gitctl_pending,
    pendingLoop_ignores_selection cfg w sel1 sel2 m sc nf d v projects fs [] []]

/-- C10 (confirmed): `pending` iterates every project in the registry and its
result is independent of any caller-supplied selection, while `fetch`,
`update` and `status` restrict processing to the selected subset: with a
non-empty selection, every emitted log line names a selected project. -/
theorem C10_selection (cfg : Config) (projects : List Project) (pargs : PendingArgs)
    (uargs : UpdateArgs) (sargs : StatusArgs) (fargs : FetchArgs) (w : GitWorld) (fs : FS) :
    (∀ sel1 sel2 : List String,
      gitctl_pending cfg projects { pargs with project := sel1 } w fs =
        gitctl_pending cfg projects { pargs with project := sel2 } w fs) ∧
    (∀ ps fs' logs, gitctl_pending cfg projects pargs w fs = (ps, fs', logs, none) →
      ps.length = projects.length) ∧
    (uargs.project ≠ [] → ∀ e ∈ (gitctl_update cfg projects uargs w fs).2.1,
      ∃ n, entryName e = some n ∧ n ∈ uargs.project) ∧
    (sargs.project ≠ [] → ∀ e ∈ (gitctl_status cfg projects sargs w fs).2.1,
      ∃ n, entryName e = some n ∧ n ∈ sargs.project) ∧
    (fargs.project ≠ [] → ∀ e ∈ (gitctl_fetch cfg projects fargs w fs).2.1,
      ∃ n, entryName e = some n ∧ n ∈ fargs.project) := by
  refine ⟨fun sel1 sel2 => ?_, ?_, ?_, ?_, ?_⟩
  · obtain ⟨sel0, m, sc, nf, d, v⟩ := pargs
    exact gitctl_pending_ignores_selection cfg projects w fs sel1 sel2 m sc nf d v
  · intro ps fs' logs h
    rw [gitctl_pending] at h
    rcases hloop : pendingLoop cfg pargs w projects fs [] [] with ⟨ps0, fs0, logs0, err0⟩
    rw [hloop] at h
    cases err0 with
    | some e => simp at h
    | none =>
      dsimp only at h
      have hlen := pendingLoop_length cfg pargs w projects fs [] [] ps0 fs0 logs0 hloop
      split at h <;>
        (simp only [Prod.mk.injEq] at h
         obtain ⟨h1, -, -, -⟩ := h
         rw [← h1]
         simpa using hlen)
  · intro hne e he
    rcases updateLoop_log_names cfg w uargs.verbose (filter_projects projects uargs.project)
        fs [] e he with h1 | ⟨p, hp, hn⟩
    · exact absurd h1 (List.not_mem_nil e)
    · exact ⟨p.name, hn, filter_projects_name_mem projects uargs.project p hne hp⟩
  · intro hne e he
    rcases statusLoop_log_names cfg sargs w (filter_projects projects sargs.project)
        fs [] e he with h1 | ⟨p, hp, hn⟩
    · exact absurd h1 (List.not_mem_nil e)
    · exact ⟨p.name, hn, filter_projects_name_mem projects sargs.project p hne hp⟩
  · intro hne e he
    rcases fetchLoop_log_names cfg w (filter_projects projects fargs.project)
        fs [] e he with h1 | ⟨p, hp, hn⟩
    · exact absurd h1 (List.not_mem_nil e)
    · exact ⟨p.name, hn, filter_projects_name_mem projects fargs.project p hne hp⟩

/-- Witness for C10: the pending run over the example registry is identical
under two different selections. -/
theorem C10_selection_witness :
    gitctl_pending exCfg [exProj] ⟨["x"], PendingMode.production, false, false, false, false⟩
        exWorld [("/p", dirtyRepo)] =
      gitctl_pending exCfg [exProj] ⟨["y"], PendingMode.production, false, false, false, false⟩
        exWorld [("/p", dirtyRepo)] :=
  (C10_selection exCfg [exProj] ⟨[], PendingMode.production, false, false, false, false⟩
    ⟨[], false, false⟩ ⟨[], false, false⟩ ⟨[]⟩ exWorld [("/p", dirtyRepo)]).1 ["x"] ["y"]
